import Mathlib

/-!
Verification development for the document quality audit engine of
grammar.py.  The Python source is shallowly embedded: text is a list of
characters, Python floats are modelled as exact rationals, fallible calls
are modelled in the Except monad, and the optional collaborator modules
(language_tool_python, textstat) are modelled as absent, matching an
environment without the optional dependencies.
-/

namespace DocAudit

/-- Round-half-to-even of a rational to an integer, the rounding mode of the
Python builtin round (floats are modelled as exact rationals). -/
def roundHalfEven (x : ℚ) : ℤ :=
  if x - ⌊x⌋ < 1/2 then ⌊x⌋
  else if 1/2 < x - ⌊x⌋ then ⌊x⌋ + 1
  else if Even ⌊x⌋ then ⌊x⌋ else ⌊x⌋ + 1

/-- Models the Python call round(x, 2). -/
def pyRound2 (x : ℚ) : ℚ := (roundHalfEven (100 * x) : ℚ) / 100

/-- Text is modelled as a list of Unicode characters. -/
abbrev Text := List Char

/-- Canonical decomposition fragment of the Unicode character database, used
to model unicodedata.normalize("NFC", text): U+00E9 (latin small e with
acute) canonically decomposes to U+0065 U+0301; every other character in this
development has a trivial decomposition.  The model is faithful for texts
over characters that have trivial canonical decomposition, combining class 0
and no primary composites, together with U+0065, U+0301 and U+00E9. -/
def nfcDecomp (c : Char) : List Char :=
  if c = '\u00e9' then ['e', '\u0301'] else [c]

/-- Canonical composition pass of the NFC algorithm on the fragment: the only
primary composite is (U+0065, U+0301) ↦ U+00E9, and canonical ordering is the
identity because U+0301 is the only modelled character with a nonzero
combining class. -/
def nfcCompose : List Char → List Char
  | [] => []
  | [a] => [a]
  | a :: b :: rest =>
    if a = 'e' ∧ b = '\u0301' then '\u00e9' :: nfcCompose rest
    else a :: nfcCompose (b :: rest)

/-- Model of the call unicodedata.normalize("NFC", text) on the fragment. -/
def nfc (t : Text) : Text := nfcCompose (t.flatMap nfcDecomp)

/-- Models str.replace("\r\n", "\n"): leftmost non-overlapping replacement. -/
def replaceCrLf : Text → Text
  | [] => []
  | [c] => [c]
  | c :: d :: rest =>
    if c = '\r' ∧ d = '\n' then '\n' :: replaceCrLf rest
    else c :: replaceCrLf (d :: rest)

/-- Models str.replace("\r", "\n"). -/
def replaceCr (t : Text) : Text := t.map (fun c => if c = '\r' then '\n' else c)

/-- Models str.replace("\x00", ""). -/
def removeNul (t : Text) : Text := t.filter (fun c => c ≠ '\x00')

/-- A space or tab, the character class of the regex [ \t]. -/
def isBlankChar (c : Char) : Bool := decide (c = ' ' ∨ c = '\t')

/-- True when the text, after dropping leading spaces and tabs, starts with a
line feed. -/
def leadsToNl : Text → Bool
  | [] => false
  | c :: rest => if isBlankChar c then leadsToNl rest else decide (c = '\n')

/-- Models re.sub(r"[ \t]+\n", "\n", text): a character is deleted exactly
when it is a space or tab whose maximal blank run is followed by a line feed,
which is the effect of the substitution. -/
def stripWsBeforeNl : Text → Text
  | [] => []
  | c :: rest =>
    if isBlankChar c && leadsToNl rest then stripWsBeforeNl rest
    else c :: stripWsBeforeNl rest

/-- Translation of normalize_text: NFC normalization, line-break
unification, NUL removal, and deletion of blanks before a line feed. -/
def normalize_text (t : Text) : Text :=
  stripWsBeforeNl (removeNul (replaceCr (replaceCrLf (nfc t))))

/-- No piece of adjacent text composes under the fragment NFC: the pair
(U+0065, U+0301) never occurs adjacently. -/
def noCompose (a b : Char) : Prop := ¬(a = 'e' ∧ b = '\u0301')

/-- A line or page terminator, the character class of the regex [\n\f]. -/
def isLineBreakChar (c : Char) : Bool := decide (c = '\n' ∨ c = '\x0c')

/-- Translation of build_line_starts: offset 0, plus the offset one past
every line feed or form feed (each regex match here is a single character,
so each match end is the terminator index plus one). -/
def build_line_starts (t : Text) : List Nat :=
  0 :: ((List.range t.length).filter
    (fun i => isLineBreakChar (t.getD i ' '))).map (· + 1)

/-- The binary-search loop shared by bisect.bisect_right and the inline
while loop of offset_to_line_col: find the insertion point of x that keeps
it to the right of equal elements.  The first argument is fuel: each
iteration shrinks the interval, so any fuel of at least hi - lo reproduces
the while loop exactly and the zero-fuel base case is unreachable. -/
def bisectLoop (a : List Nat) (x : Nat) : Nat → Nat → Nat → Nat
  | 0, lo, _ => lo
  | fuel + 1, lo, hi =>
    if lo < hi then
      if a.getD ((lo + hi) / 2) 0 ≤ x then bisectLoop a x fuel ((lo + hi) / 2 + 1) hi
      else bisectLoop a x fuel lo ((lo + hi) / 2)
    else lo

/-- Translation of bisect.bisect_right. -/
def bisect_right (a : List Nat) (x : Nat) : Nat := bisectLoop a x a.length 0 a.length

/-- Translation of offset_to_line_col; its inline while loop is the
bisect_right search.  Python subtraction is exact, so the column is an
integer; max(0, lo - 1) is natural-number truncated subtraction. -/
def offset_to_line_col (offset : Nat) (line_starts : List Nat) : Nat × ℤ :=
  let lo := bisect_right line_starts offset
  let line_idx := lo - 1
  (line_idx + 1, (offset : ℤ) - (line_starts.getD line_idx 0 : ℤ) + 1)

/-- Translation of offset_to_page. -/
def offset_to_page (offset : Nat) (page_breaks : List Nat) : Nat :=
  if page_breaks = [] then 1 else bisect_right page_breaks offset + 1

/-- Translation of offset_to_page_line_col. -/
def offset_to_page_line_col (offset : Nat) (line_starts page_breaks : List Nat) :
    Option Nat × Nat × ℤ :=
  let lc := offset_to_line_col offset line_starts
  if page_breaks = [] then (none, lc.1, lc.2)
  else
    let page_idx := bisect_right page_breaks offset
    let page_start := if page_idx = 0 then 0 else page_breaks.getD (page_idx - 1) 0 + 1
    let page_line_start_idx := bisect_right line_starts page_start - 1
    let line_idx := bisect_right line_starts offset - 1
    let page_line_no := max 1 (line_idx - page_line_start_idx + 1)
    (some (page_idx + 1), page_line_no, lc.2)

/-- The slice text[s:e] for 0 ≤ s ≤ e, clamped to the text length. -/
def pySlice (t : Text) (s e : Nat) : Text := (t.take e).drop s

/-- The call text.rfind(ch, s, e): the greatest index in [s, e) holding ch,
none when Python returns -1. -/
def rfindIn (t : Text) (ch : Char) (s e : Nat) : Option Nat :=
  (((List.range' s (e - s)).filter (fun i => decide (t[i]? = some ch))).getLast?)

/-- The hard cutoff min(length, start + max_chars) of one window of
iter_text_chunks. -/
def hardEnd (t : Text) (max_chars start : Nat) : Nat :=
  min t.length (start + max_chars)

/-- The chosen end of the window starting at start in one iteration of
iter_text_chunks: the hard cutoff, pulled back to the last line feed
(falling back to the last space) when one lies past half the window. -/
def chunkEnd (t : Text) (max_chars start : Nat) : Nat :=
  if hardEnd t max_chars start < t.length then
    match (match rfindIn t '\n' start (hardEnd t max_chars start) with
           | some b => some b
           | none => rfindIn t ' ' start (hardEnd t max_chars start)) with
    | some b => if start + max_chars / 2 < b then b else hardEnd t max_chars start
    | none => hardEnd t max_chars start
  else hardEnd t max_chars start

/-- The while loop of iter_text_chunks, carried by fuel: every iteration
moves start strictly forward under the documented overlap bound, so fuel
exceeding the remaining length reproduces the loop exactly; none models a
non-terminating configuration.  Nonnegative Python ints are modelled as
naturals, so max(0, end - overlap) is truncated subtraction. -/
def iterChunksLoop (t : Text) (max_chars overlap : Nat) :
    Nat → Nat → Option (List (Text × Nat))
  | 0, _ => none
  | fuel + 1, start =>
    if start < t.length then
      let endv := chunkEnd t max_chars start
      let chunk := pySlice t start endv
      if endv = t.length then some [(chunk, start)]
      else (iterChunksLoop t max_chars overlap fuel (endv - overlap)).map
        (fun rest => (chunk, start) :: rest)
    else some []

/-- Translation of iter_text_chunks: the generator is modelled as the list
of yielded (chunk, start) pairs. -/
def iter_text_chunks (t : Text) (max_chars overlap : Nat) :
    Option (List (Text × Nat)) :=
  if max_chars = 0 ∨ t.length ≤ max_chars then some [(t, 0)]
  else iterChunksLoop t max_chars overlap (t.length + 1) 0

/-- The apostrophe character (written by code point to keep source lexing
simple). -/
def apoChar : Char := Char.ofNat 39

/-- Python str whitespace and the regex class backslash-s, for the ASCII
range used in this development. -/
def isPySpace (c : Char) : Bool :=
  decide (c = ' ' ∨ c = '\t' ∨ c = '\n' ∨ c = '\r' ∨ c = '\x0c' ∨ c = '\x0b')

/-- The regex word class backslash-w, [A-Za-z0-9_], for the ASCII range
used in this development. -/
def isWordChar (c : Char) : Bool := c.isAlpha || c.isDigit || c = '_'

/-- The class [^ backslash-W backslash-d _] of WORD_RE: a letter (for the
ASCII range used in this development). -/
def isWordLetter (c : Char) : Bool := c.isAlpha

/-- Leading count of characters satisfying p. -/
def runLen (p : Char → Bool) : Text → Nat
  | [] => 0
  | c :: rest => if p c then runLen p rest + 1 else 0

/-- Literal prefix match: the remainder of the text after the pattern. -/
def litPrefix : Text → Text → Option Text
  | [], t => some t
  | _ :: _, [] => none
  | p :: ps, c :: rest => if c = p then litPrefix ps rest else none

/-- Case-insensitive literal prefix match, also returning the matched text
as written in the input. -/
def litPrefixCI : Text → Text → Option (Text × Text)
  | [], t => some ([], t)
  | _ :: _, [] => none
  | p :: ps, c :: rest =>
    if c.toLower = p.toLower then
      match litPrefixCI ps rest with
      | some (m, r) => some (c :: m, r)
      | none => none
    else none

/-- Non-overlapping occurrence count of str.count(pat) for a nonempty
pattern, by a left-to-right scan; fuel bounds the recursion and one unit is
spent per consumed character, so length + 1 is always enough. -/
def strCountAux (pat : Text) : Nat → Text → Nat
  | 0, _ => 0
  | _ + 1, [] => 0
  | fuel + 1, c :: rest =>
    match litPrefix pat (c :: rest) with
    | some r => strCountAux pat fuel r + 1
    | none => strCountAux pat fuel rest

/-- Translation of str.count for a nonempty pattern. -/
def strCount (pat : Text) (t : Text) : Nat := strCountAux pat (t.length + 1) t

/-- The engine of re.finditer and re.findall: at each position try the
matcher, which sees the previous character (for word boundaries) and the
remaining text and returns the match length; a match of length n consumes n
characters, anything else advances one character.  All matchers used have
positive match lengths, and fuel length + 1 is always sufficient. -/
def scanSpans (m : Option Char → Text → Option Nat) :
    Nat → Nat → Option Char → Text → List (Nat × Nat)
  | 0, _, _, _ => []
  | _ + 1, _, _, [] => []
  | fuel + 1, pos, prev, c :: rest =>
    match m prev (c :: rest) with
    | some n =>
      if n = 0 then scanSpans m fuel (pos + 1) (some c) rest
      else (pos, pos + n) ::
        scanSpans m fuel (pos + n) (((c :: rest).take n).getLast?)
          ((c :: rest).drop n)
    | none => scanSpans m fuel (pos + 1) (some c) rest

/-- All spans of a pattern in the text. -/
def findSpans (m : Option Char → Text → Option Nat) (t : Text) : List (Nat × Nat) :=
  scanSpans m (t.length + 1) 0 none t

/-- Number of matches of a pattern in the text. -/
def countMatches (m : Option Char → Text → Option Nat) (t : Text) : Nat :=
  (findSpans m t).length

/-- True when there is no word character just before the current position,
the condition of a word boundary before a word character. -/
def boundaryBefore (prev : Option Char) : Bool :=
  match prev with
  | none => true
  | some c => !isWordChar c

/-- Matcher for the pattern [!?]{2,}. -/
def mDoublePunct (_ : Option Char) (t : Text) : Option Nat :=
  let n := runLen (fun c => decide (c = '!' ∨ c = '?')) t
  if 2 ≤ n then some n else none

/-- Matcher for one semicolon. -/
def mSemicolon (_ : Option Char) (t : Text) : Option Nat :=
  match t with
  | c :: _ => if c = ';' then some 1 else none
  | [] => none

/-- Matcher for the pattern of three dots or the ellipsis character. -/
def mEllipsis (_ : Option Char) (t : Text) : Option Nat :=
  match t with
  | '.' :: '.' :: '.' :: _ => some 3
  | c :: _ => if c = '…' then some 1 else none
  | [] => none

/-- Matcher for a spaced em dash or a spaced double hyphen (the combined
issue-sampling pattern of the punctuation check). -/
def mSpacedDash (_ : Option Char) (t : Text) : Option Nat :=
  match t with
  | a :: b :: c :: rest =>
    if isPySpace a ∧ b = '—' ∧ isPySpace c then some 3
    else
      match rest with
      | d :: _ =>
        if isPySpace a ∧ b = '-' ∧ c = '-' ∧ isPySpace d then some 4 else none
      | [] => none
  | _ => none

/-- Matcher for a spaced em dash alone. -/
def mSpacedEm (_ : Option Char) (t : Text) : Option Nat :=
  match t with
  | a :: b :: c :: _ =>
    if isPySpace a ∧ b = '—' ∧ isPySpace c then some 3 else none
  | _ => none

/-- Matcher for a spaced double hyphen alone. -/
def mSpacedHyphens (_ : Option Char) (t : Text) : Option Nat :=
  match t with
  | a :: b :: c :: d :: _ =>
    if isPySpace a ∧ b = '-' ∧ c = '-' ∧ isPySpace d then some 4 else none
  | _ => none

/-- Matcher for two hyphens. -/
def mDoubleHyphen (_ : Option Char) (t : Text) : Option Nat :=
  match t with
  | '-' :: '-' :: _ => some 2
  | _ => none

/-- Matcher for a run of at least two spaces. -/
def mDoubleSpace (_ : Option Char) (t : Text) : Option Nat :=
  let n := runLen (fun c => decide (c = ' ')) t
  if 2 ≤ n then some n else none

/-- Length matched by a number with optional decimal part, the fragment
digits+ optionally followed by a dot and digits+. -/
def numLen (t : Text) : Option Nat :=
  let d1 := runLen Char.isDigit t
  if d1 = 0 then none
  else
    match t.drop d1 with
    | '.' :: rest2 =>
      let d2 := runLen Char.isDigit rest2
      if d2 = 0 then some d1 else some (d1 + 1 + d2)
    | _ => some d1

/-- Matcher for the percent-symbol pattern: word boundary, number with
optional decimal part, optional whitespace, percent sign. -/
def mPercentSym (prev : Option Char) (t : Text) : Option Nat :=
  if !boundaryBefore prev then none
  else
    match numLen t with
    | none => none
    | some n =>
      let rest := t.drop n
      let s := runLen isPySpace rest
      match rest.drop s with
      | c :: _ => if c = '%' then some (n + s + 1) else none
      | [] => none

/-- Length of the percent word alternation (percent, or per, optional
whitespace, cent), case-insensitively, followed by a word boundary. -/
def percentWordLen (t : Text) : Option Nat :=
  match litPrefixCI ("percent".toList) t with
  | some (_, r) =>
    match r with
    | c :: _ => if isWordChar c then pcFallback t else some 7
    | [] => some 7
  | none => pcFallback t
where
  /-- The alternative per, optional whitespace, cent with a trailing word
  boundary. -/
  pcFallback (t : Text) : Option Nat :=
    match litPrefixCI ("per".toList) t with
    | none => none
    | some (_, r) =>
      let s := runLen isPySpace r
      match litPrefixCI ("cent".toList) (r.drop s) with
      | none => none
      | some (_, r2) =>
        match r2 with
        | c :: _ => if isWordChar c then none else some (3 + s + 4)
        | [] => some (3 + s + 4)

/-- Matcher for the percent-word pattern: word boundary, number with
optional decimal part, whitespace, then percent or per cent with a closing
word boundary (case-insensitive). -/
def mPercentWord (prev : Option Char) (t : Text) : Option Nat :=
  if !boundaryBefore prev then none
  else
    match numLen t with
    | none => none
    | some n =>
      let rest := t.drop n
      let s := runLen isPySpace rest
      if s = 0 then none
      else
        match percentWordLen (rest.drop s) with
        | some w => some (n + s + w)
        | none => none

/-- Matcher for the whole percent_values alternation: the symbol variant
first, then the word variant, as in the source pattern. -/
def mPercentAny (prev : Option Char) (t : Text) : Option Nat :=
  match mPercentSym prev t with
  | some n => some n
  | none => mPercentWord prev t

/-- Matcher for a decimal percentage: word boundary, digits, dot, digits,
optional whitespace, percent sign. -/
def mDecimalPct (prev : Option Char) (t : Text) : Option Nat :=
  if !boundaryBefore prev then none
  else
    let d1 := runLen Char.isDigit t
    if d1 = 0 then none
    else
      match t.drop d1 with
      | '.' :: rest2 =>
        let d2 := runLen Char.isDigit rest2
        if d2 = 0 then none
        else
          let rest3 := rest2.drop d2
          let s := runLen isPySpace rest3
          match rest3.drop s with
          | c :: _ => if c = '%' then some (d1 + 1 + d2 + s + 1) else none
          | [] => none
      | _ => none

/-- Matcher for a whole-number percentage: word boundary, digits, optional
whitespace, percent sign. -/
def mIntPct (prev : Option Char) (t : Text) : Option Nat :=
  if !boundaryBefore prev then none
  else
    let d1 := runLen Char.isDigit t
    if d1 = 0 then none
    else
      let rest := t.drop d1
      let s := runLen isPySpace rest
      match rest.drop s with
      | c :: _ => if c = '%' then some (d1 + s + 1) else none
      | [] => none

/-- Matcher for a raw URL: http(s)://~ or www.~ followed by at least one
non-whitespace character consumed greedily. -/
def mRawUrl (_ : Option Char) (t : Text) : Option Nat :=
  match litPrefix ("http".toList) t with
  | some r =>
    let (slen, r2) :=
      match r with
      | 's' :: r1 => (5, r1)
      | _ => (4, r)
    match litPrefix ("://".toList) r2 with
    | some r3 =>
      let n := runLen (fun c => !isPySpace c) r3
      if n = 0 then wwwCase t else some (slen + 3 + n)
    | none => wwwCase t
  | none => wwwCase t
where
  /-- The www-dot alternative of the raw URL pattern. -/
  wwwCase (t : Text) : Option Nat :=
    match litPrefix ("www.".toList) t with
    | some r =>
      let n := runLen (fun c => !isPySpace c) r
      if n = 0 then none else some (4 + n)
    | none => none

/-- Matcher for a markdown link: bracketed label, then parenthesis,
optional whitespace, an http(s) URL, closing parenthesis. -/
def mMarkdownLink (_ : Option Char) (t : Text) : Option Nat :=
  match t with
  | '[' :: r1 =>
    let lab := runLen (fun c => decide (c ≠ ']')) r1
    if lab = 0 then none
    else
      match r1.drop lab with
      | ']' :: '(' :: r2 =>
        let s := runLen isPySpace r2
        let r3 := r2.drop s
        match litPrefix ("http".toList) r3 with
        | some r4 =>
          let (slen, r5) :=
            match r4 with
            | 's' :: rr => (5, rr)
            | _ => (4, r4)
          match litPrefix ("://".toList) r5 with
          | some r6 =>
            let body := runLen (fun c => decide (c ≠ ')')) r6
            if body = 0 then none
            else
              match r6.drop body with
              | ')' :: _ => some (1 + lab + 2 + s + slen + 3 + body + 1)
              | _ => none
          | none => none
        | none => none
      | _ => none
  | _ => none

/-- Matcher for an acronym: a maximal word run of two to six characters,
all uppercase letters, between word boundaries. -/
def mAcronym (prev : Option Char) (t : Text) : Option Nat :=
  if !boundaryBefore prev then none
  else
    let n := runLen isWordChar t
    if 2 ≤ n ∧ n ≤ 6 ∧ (t.take n).all Char.isUpper then some n else none

/-- Matcher for one specific word between word boundaries (the pattern of
re.search for a single acronym). -/
def mExactWord (w : Text) (prev : Option Char) (t : Text) : Option Nat :=
  if !boundaryBefore prev then none
  else
    let n := runLen isWordChar t
    if n = w.length ∧ t.take n = w then some n else none

/-- The be-forms of the passive-voice pattern. -/
def beForms : List Text :=
  ["am".toList, "is".toList, "are".toList, "was".toList, "were".toList,
   "be".toList, "been".toList, "being".toList]

/-- Matcher for a passive-like phrase: a be-form between word boundaries,
whitespace, then a word run of length at least three ending in ed or en
(case-insensitive throughout). -/
def mPassive (prev : Option Char) (t : Text) : Option Nat :=
  if !boundaryBefore prev then none
  else
    let n1 := runLen isWordChar t
    let w1 := (t.take n1).map Char.toLower
    if beForms.any (fun b => b = w1) then
      let rest := t.drop n1
      let s := runLen isPySpace rest
      if s = 0 then none
      else
        let rest2 := rest.drop s
        let n2 := runLen isWordChar rest2
        let w2 := (rest2.take n2).map Char.toLower
        if 3 ≤ n2 ∧
            (litPrefix ("de".toList) w2.reverse ≠ none ∨
             litPrefix ("ne".toList) w2.reverse ≠ none) then
          some (n1 + s + n2)
        else none
    else none

/-- The protected abbreviation literals of ABBREVIATIONS, in source order
(regex alternation takes the first alternative that matches). -/
def abbrevPats : List Text :=
  ["e.g.", "i.e.", "mr.", "mrs.", "ms.", "dr.", "prof.", "sr.", "jr.",
   "vs.", "no.", "u.s.", "u.k.", "etc.", "inc.", "ltd.", "jan.", "feb.",
   "mar.", "apr.", "jun.", "jul.", "aug.", "sep.", "sept.", "oct.", "nov.",
   "dec."].map String.toList

/-- Replacement applied inside a matched abbreviation: each dot becomes the
marker <DOT>. -/
def dotToMarker (m : Text) : Text :=
  m.flatMap (fun c => if c = '.' then "<DOT>".toList else [c])

/-- Translation of _protect_abbreviations: case-insensitive scan with a
word boundary before each candidate; a match is emitted with its dots
replaced and scanning resumes after it.  Fuel length + 1 suffices since
every step consumes at least one character. -/
def protectAbbrevAux : Nat → Bool → Text → Text
  | 0, _, t => t
  | _ + 1, _, [] => []
  | fuel + 1, prevWord, c :: rest =>
    if prevWord then c :: protectAbbrevAux fuel (isWordChar c) rest
    else
      match abbrevPats.findSome? (fun pat => litPrefixCI pat (c :: rest)) with
      | some (m, r) => dotToMarker m ++ protectAbbrevAux fuel false r
      | none => c :: protectAbbrevAux fuel (isWordChar c) rest

/-- Translation of the decimal protection sub: digit dot digit becomes
digit <DECIMAL> digit, scanning resuming after each match. -/
def protectDecimals : Text → Text
  | a :: b :: c :: rest =>
    if a.isDigit ∧ b = '.' ∧ c.isDigit then
      a :: ("<DECIMAL>".toList ++ (c :: protectDecimals rest))
    else a :: protectDecimals (b :: c :: rest)
  | t => t

/-- Translation of the initial protection sub: an uppercase letter at a
word boundary followed by a dot keeps the letter and replaces the dot by
<DOT>. -/
def protectInitials : Bool → Text → Text
  | _, [] => []
  | _, [c] => [c]
  | prevWord, a :: b :: rest =>
    if prevWord = false ∧ a.isUpper ∧ b = '.' then
      a :: ("<DOT>".toList ++ protectInitials false rest)
    else a :: protectInitials (isWordChar a) (b :: rest)

/-- The lookahead of the sentence boundary: an optional quote, parenthesis
or bracket, then an uppercase letter or digit. -/
def lookaheadOk : Text → Bool
  | [] => false
  | c :: rest =>
    if decide (c = '"' ∨ c = apoChar ∨ c = '(' ∨ c = '[') then
      match rest with
      | d :: _ => d.isUpper || d.isDigit
      | [] => false
    else c.isUpper || c.isDigit

/-- The sentence boundary split: a whitespace run preceded by terminal
punctuation and followed by the lookahead is a delimiter.  Fuel length + 1
suffices since every step consumes at least one character. -/
def sentSplitAux : Nat → Bool → Text → Text → List Text
  | 0, _, acc, t => [acc.reverse ++ t]
  | _ + 1, _, acc, [] => [acc.reverse]
  | fuel + 1, prevPunct, acc, c :: rest =>
    if isPySpace c ∧ prevPunct ∧ lookaheadOk ((c :: rest).dropWhile isPySpace) then
      acc.reverse :: sentSplitAux fuel false [] ((c :: rest).dropWhile isPySpace)
    else sentSplitAux fuel (decide (c = '.' ∨ c = '!' ∨ c = '?')) (c :: acc) rest

/-- Literal, non-overlapping replacement of str.replace.  Fuel length + 1
suffices for a nonempty pattern. -/
def replaceLitAux (pat rep : Text) : Nat → Text → Text
  | 0, t => t
  | _ + 1, [] => []
  | fuel + 1, c :: rest =>
    match litPrefix pat (c :: rest) with
    | some r => rep ++ replaceLitAux pat rep fuel r
    | none => c :: replaceLitAux pat rep fuel rest

/-- Translation of str.replace for a nonempty literal pattern. -/
def replaceLit (pat rep t : Text) : Text := replaceLitAux pat rep (t.length + 1) t

/-- Translation of str.strip(): remove leading and trailing whitespace. -/
def pyStrip (t : Text) : Text :=
  ((t.dropWhile isPySpace).reverse.dropWhile isPySpace).reverse

/-- Translation of str.isspace(). -/
def pyIsSpaceStr (t : Text) : Bool := !t.isEmpty && t.all isPySpace

/-- Squeeze runs of spaces to one space. -/
def squeezeSpaces : Text → Text
  | [] => []
  | [c] => [c]
  | c :: d :: rest =>
    if c = ' ' ∧ d = ' ' then squeezeSpaces (d :: rest)
    else c :: squeezeSpaces (d :: rest)

/-- The collapse re.sub of a whitespace run to one space: canonicalize
every whitespace character to a space, then squeeze runs. -/
def collapseWs (t : Text) : Text :=
  squeezeSpaces (t.map (fun c => if isPySpace c then ' ' else c))

/-- Translation of split_sentences. -/
def split_sentences (t : Text) : List Text :=
  let collapsed0 := collapseWs t
  let collapsed1 := protectAbbrevAux (collapsed0.length + 1) false collapsed0
  let collapsed2 := protectDecimals collapsed1
  let collapsed3 := protectInitials false collapsed2
  let candidates := sentSplitAux (collapsed3.length + 1) false [] collapsed3
  (candidates.map (fun c =>
    pyStrip (replaceLit ("<DECIMAL>".toList) (".".toList)
      (replaceLit ("<DOT>".toList) (".".toList) c)))).filter
    (fun c => !c.isEmpty && !pyIsSpaceStr c)

/-- Longest letter run and remainder. -/
def takeLetters : Text → Text × Text
  | [] => ([], [])
  | c :: rest =>
    if isWordLetter c then
      match takeLetters rest with
      | (r, rest2) => (c :: r, rest2)
    else ([], c :: rest)

/-- Apostrophe- or hyphen-joined continuation of WORD_RE. Fuel equal to the
text length suffices: each round consumes at least two characters. -/
def extendToken : Nat → Text → Text × Text
  | 0, t => ([], t)
  | fuel + 1, t =>
    match t with
    | q :: c :: rest =>
      if (q = apoChar ∨ q = '-') ∧ isWordLetter c then
        match takeLetters (c :: rest) with
        | (r, rest2) =>
          match extendToken fuel rest2 with
          | (more, rest3) => (q :: (r ++ more), rest3)
      else ([], t)
    | _ => ([], t)

/-- The token scan of WORD_RE.findall.  Fuel length + 1 suffices: each
round consumes at least one character. -/
def wordTokensAux : Nat → Text → List Text
  | 0, _ => []
  | _ + 1, [] => []
  | fuel + 1, c :: rest =>
    if isWordLetter c then
      match takeLetters (c :: rest) with
      | (r, rest1) =>
        match extendToken rest1.length rest1 with
        | (ext, rest2) => (r ++ ext) :: wordTokensAux fuel rest2
    else wordTokensAux fuel rest

/-- Translation of word_tokens, the findall of WORD_RE. -/
def word_tokens (t : Text) : List Text := wordTokensAux (t.length + 1) t

/-- Translation of percent_values: the matched strings of the percent
pattern. -/
def percent_values (t : Text) : List Text :=
  (findSpans mPercentAny t).map (fun p => pySlice t p.1 p.2)

/-- Translation of re.split on the class of line and page terminators. -/
def splitLines : Text → List Text
  | [] => [[]]
  | c :: rest =>
    if isLineBreakChar c then [] :: splitLines rest
    else
      match splitLines rest with
      | l :: ls => (c :: l) :: ls
      | [] => [[c]]

/-- A value of the heterogeneous metrics dictionary (Dict[str, Any]). -/
inductive MVal
  | int (n : ℤ)
  | num (q : ℚ)
  | str (s : String)
  | strs (l : List String)
  | bool (b : Bool)
deriving DecidableEq

/-- The metrics dictionary, as an association list in insertion order. -/
abbrev Metrics := List (String × MVal)

/-- Dictionary assignment: overwrites in place, appends when absent. -/
def setMetric (m : Metrics) (k : String) (v : MVal) : Metrics :=
  if m.any (fun p => p.1 = k) then m.map (fun p => if p.1 = k then (k, v) else p)
  else m ++ [(k, v)]

/-- Dictionary lookup. -/
def getMetric (m : Metrics) (k : String) : Option MVal :=
  (m.find? (fun p => p.1 = k)).map (fun p => p.2)

/-- Translation of the Issue dataclass. -/
structure Issue where
  check_id : String
  message : String
  location : Option String := none
  severity : Option String := none
  line : Option Nat := none
  col : Option ℤ := none
  page : Option Nat := none
  snippet : Option String := none
  highlight : Option String := none
deriving DecidableEq

/-- Translation of the CheckResult dataclass. -/
structure CheckResult where
  check_id : String
  name : String
  score : ℚ
  max_score : ℚ
  issues : List Issue
  metrics : Metrics
  status : String
deriving DecidableEq

/-- Translation of the AuditOptions dataclass (Python ints as integers). -/
structure AuditOptions where
  max_issues : ℤ
  max_issues_per_check : ℤ
  lt_chunk_size : ℤ
  lt_overlap : ℤ
  strict : Bool
  enable_langtool : Bool
  ocr_mode : String
  ocr_lang : String
  ocr_dpi : ℤ
  ocr_min_chars : ℤ
deriving DecidableEq

/-- Translation of the CheckContext dataclass. -/
structure CheckContext where
  text : Text
  language : String
  lines : List Text
  sentences : List Text
  words : List Text
  line_starts : List Nat
  page_breaks : List Nat
  options : AuditOptions

/-- Translation of the AuditReport dataclass.  The summary and doc_info
fields are omitted: summary restates the other fields verbatim and
doc_info is pass-through input, and no claim mentions either. -/
structure AuditReport where
  file_path : String
  language : String
  total_score : ℚ
  coverage : ℚ
  check_results : List CheckResult
deriving DecidableEq

/-- Translation of the CheckSpec dataclass; a procedure that raises is
modelled in the Except monad. -/
structure CheckSpec where
  check_id : String
  name : String
  weight : ℚ
  func : CheckContext → ℚ → Except String CheckResult

/-- Translation of format_location. -/
def format_location (line : Nat) (col : ℤ) (snippet : Option String)
    (page : Option Nat) : String :=
  let base :=
    match page with
    | some p => "Page " ++ toString p ++ ", Line " ++ toString line ++ ", Col " ++ toString col
    | none => "Line " ++ toString line ++ ", Col " ++ toString col
  match snippet with
  | some s => base ++ ": " ++ s
  | none => base

/-- Characters replaced by spaces inside snippets. -/
def nlFfToSpace (c : Char) : Char :=
  if c = '\n' then ' ' else if c = '\x0c' then ' ' else c

/-- Translation of snippet_around. -/
def snippet_around (t : Text) (s e width : Nat) : Text :=
  let half := max 10 (width / 2)
  let left := s - half
  let right := min t.length (e + half)
  pyStrip ((pySlice t left right).map nlFfToSpace)

/-- Some string for a nonempty text, none otherwise (the pattern of the
snippet if snippet else None arguments). -/
def someIfNonempty (t : Text) : Option String :=
  if t.isEmpty then none else some t.asString

/-- Translation of issue_from_span. -/
def issue_from_span (ctx : CheckContext) (check_id message : String)
    (s e width : Nat) : Issue :=
  let snippet := snippet_around ctx.text s e width
  let highlight := pyStrip ((pySlice ctx.text s e).map nlFfToSpace)
  let plc := offset_to_page_line_col s ctx.line_starts ctx.page_breaks
  { check_id := check_id, message := message,
    location := some (format_location plc.2.1 plc.2.2 (someIfNonempty snippet) plc.1),
    line := some plc.2.1, col := some plc.2.2, page := plc.1,
    snippet := someIfNonempty snippet, highlight := someIfNonempty highlight }

/-- The loop of add_match_issues over the spans of the pattern: stops at
the per-check issue cap, samples at most max_samples matches. -/
def addMatchLoop (ctx : CheckContext) (check_id : String) (message : Text → String)
    (max_samples : ℤ) : List (Nat × Nat) → List Issue → ℤ → List Issue
  | [], issues, _ => issues
  | (s, e) :: rest, issues, added =>
    if (issues.length : ℤ) ≥ ctx.options.max_issues_per_check then issues
    else
      let issues2 := issues ++
        [issue_from_span ctx check_id (message (pySlice ctx.text s e)) s e 80]
      if max_samples ≤ added + 1 then issues2
      else addMatchLoop ctx check_id message max_samples rest issues2 (added + 1)

/-- Translation of add_match_issues (the returned count is unused at every
call site and is dropped). -/
def add_match_issues (ctx : CheckContext) (issues : List Issue) (check_id : String)
    (spans : List (Nat × Nat)) (message : Text → String) (max_samples : ℤ) :
    List Issue :=
  addMatchLoop ctx check_id message max_samples spans issues 0

/-- Translation of build_context. -/
def build_context (text : Text) (language : String) (options : AuditOptions) :
    CheckContext :=
  { text := text, language := language,
    lines := splitLines text,
    sentences := split_sentences text,
    words := word_tokens text,
    line_starts := build_line_starts text,
    page_breaks := (List.range text.length).filter
      (fun i => decide (text.getD i ' ' = '\x0c')),
    options := options }

/-- Models the failed optional import of language_tool_python (the
collaborator module is absent in the modelled environment). -/
def language_tool_python : Option Unit := none

/-- Models the failed optional import of textstat. -/
def textstat : Option Unit := none

/-- Python slice l[:n] with a possibly negative bound. -/
def pyTake {α : Type} (l : List α) (n : ℤ) : List α :=
  if 0 ≤ n then l.take n.toNat else l.take (l.length - (-n).toNat)

/-- Mean of a list of naturals as an exact rational (statistics.mean). -/
def qMean (l : List Nat) : ℚ := ((l.map (fun n => (n : ℚ))).sum) / (l.length : ℚ)

/-- Translation of check_language_tool.  Because the optional module is
modelled as absent, the guard not enable_langtool or module is None is
always true and only the skipped branch is reachable; the tool-backed
branch (chunked collaborator calls) is unreachable and elided. -/
def check_language_tool (_ctx : CheckContext) (max_points : ℚ) : CheckResult :=
  { check_id := "language_tool", name := "Grammar and style (LanguageTool)",
    score := 0, max_score := max_points,
    issues := [({ check_id := "language_tool",
                  message := "language_tool_python not installed or disabled; skipping deep grammar/style checks." } : Issue)],
    metrics := [("available", MVal.bool false),
      ("scoring_notes",
        MVal.str "Not scored because LanguageTool is unavailable or disabled.")],
    status := "skipped" }

/-- Translation of check_readability.  textstat is modelled as absent, so
the branch adding the two optional readability metrics is elided. -/
def check_readability (ctx : CheckContext) (max_points : ℚ) : CheckResult :=
  let sents := ctx.sentences
  let words := ctx.words
  let avg_len : ℚ :=
    if sents.isEmpty then 0 else qMean (sents.map (fun s => (word_tokens s).length))
  let long_sents := sents.filter (fun s => decide (30 < (word_tokens s).length))
  let metrics : Metrics :=
    [("avg_sentence_length_words", MVal.num (pyRound2 avg_len)),
     ("long_sentences_over_30_words", MVal.int long_sents.length),
     ("word_count", MVal.int words.length),
     ("sentence_count", MVal.int sents.length)]
  let penalty := min max_points ((0.5 : ℚ) * long_sents.length)
  let metrics := setMetric metrics "penalty_points" (MVal.num (pyRound2 penalty))
  let metrics := setMetric metrics "scoring_notes"
    (MVal.str "0.5 points per sentence over 30 words (capped).")
  let score := max_points - penalty
  let issues := (pyTake long_sents (min 3 ctx.options.max_issues_per_check)).map
    (fun ex =>
      ({ check_id := "readability",
         message := "Very long sentence (over 30 words). Consider splitting.",
         location := some ((ex.take 120).asString ++
           (if 120 < ex.length then "..." else "")),
         snippet := some ((ex.take 200).asString ++
           (if 200 < ex.length then "..." else "")) } : Issue))
  { check_id := "readability", name := "Readability", score := pyRound2 score,
    max_score := max_points, issues := issues, metrics := metrics, status := "ok" }

/-- Translation of check_punctuation_style. -/
def check_punctuation_style (ctx : CheckContext) (max_points : ℚ) : CheckResult :=
  let words : Nat := max 1 ctx.words.length
  let semicolons := strCount (";".toList) ctx.text
  let ellipses := strCount ("...".toList) ctx.text + strCount ("…".toList) ctx.text
  let double_punct := countMatches mDoublePunct ctx.text
  let em_dashes := strCount ("—".toList) ctx.text
  let double_hyphens := countMatches mDoubleHyphen ctx.text
  let spaced_em_dashes := countMatches mSpacedEm ctx.text
  let spaced_double_hyphens := countMatches mSpacedHyphens ctx.text
  let metrics : Metrics :=
    [("semicolons", MVal.int semicolons),
     ("semicolons_per_1000_words",
       MVal.num (pyRound2 ((1000 * (semicolons : ℚ)) / (words : ℚ)))),
     ("ellipses", MVal.int ellipses),
     ("double_punctuations", MVal.int double_punct),
     ("em_dashes", MVal.int em_dashes),
     ("double_hyphens", MVal.int double_hyphens),
     ("em_dashes_with_spaces", MVal.int spaced_em_dashes),
     ("double_hyphens_with_spaces", MVal.int spaced_double_hyphens)]
  let penalty : ℚ := 0
  let penalty_reasons : List String := []
  let issues : List Issue := []
  let (penalty, penalty_reasons, issues) :=
    if 0 < semicolons ∧ (3.0 : ℚ) < (1000 * (semicolons : ℚ)) / (words : ℚ) then
      (penalty + 2.5, penalty_reasons ++ ["Semicolon density > 3 per 1,000 words (-2.5)."],
       add_match_issues ctx issues "punctuation" (findSpans mSemicolon ctx.text)
         (fun _ => "Semicolon usage (sample contributing to density penalty).") 3)
    else (penalty, penalty_reasons, issues)
  let (penalty, penalty_reasons, issues) :=
    if 2 < ellipses then
      (penalty + 1.5, penalty_reasons ++ ["Ellipses appear frequently (-1.5)."],
       add_match_issues ctx issues "punctuation" (findSpans mEllipsis ctx.text)
         (fun _ => "Ellipsis usage (sample).") 3)
    else (penalty, penalty_reasons, issues)
  let (penalty, penalty_reasons, issues) :=
    if 0 < double_punct then
      (penalty + 1.0, penalty_reasons ++ ["Repeated punctuation (e.g., !! or ??) (-1.0)."],
       add_match_issues ctx issues "punctuation" (findSpans mDoublePunct ctx.text)
         (fun _ => "Repeated punctuation (sample).") 3)
    else (penalty, penalty_reasons, issues)
  let (penalty, penalty_reasons, issues) :=
    if 0 < spaced_em_dashes ∨ 0 < spaced_double_hyphens then
      (penalty + 0.5, penalty_reasons ++ ["Spaced em dashes or double hyphens found (-0.5)."],
       add_match_issues ctx issues "punctuation" (findSpans mSpacedDash ctx.text)
         (fun _ => "Spaced dash usage (sample).") 3)
    else (penalty, penalty_reasons, issues)
  let applied_penalty := min max_points penalty
  let metrics := setMetric metrics "penalty_points" (MVal.num (pyRound2 applied_penalty))
  let metrics :=
    if penalty_reasons.isEmpty then metrics
    else setMetric metrics "penalty_reasons" (MVal.strs penalty_reasons)
  let metrics := setMetric metrics "scoring_notes"
    (MVal.str "Penalties applied per punctuation rule (capped at max score).")
  let score := max_points - applied_penalty
  { check_id := "punctuation", name := "Punctuation and style",
    score := pyRound2 score, max_score := max_points, issues := issues,
    metrics := metrics, status := "ok" }

/-- True when the line ends in a space or tab (re.search of a trailing
blank run). -/
def hasTrailingWs (line : Text) : Bool :=
  match line.reverse with
  | c :: _ => isBlankChar c
  | [] => false

/-- First index of a literal in the text (str.find, defaulting to 0 at call
sites that already checked containment). -/
def strFindAux (pat : Text) : Nat → Nat → Text → Option Nat
  | 0, _, _ => none
  | _ + 1, _, [] => none
  | fuel + 1, i, c :: rest =>
    if (litPrefix pat (c :: rest)).isSome then some i
    else strFindAux pat fuel (i + 1) rest

/-- Translation of str.find for a nonempty literal. -/
def strFind (pat t : Text) : Option Nat := strFindAux pat (t.length + 1) 0 t

/-- The per-line sampling loop of the whitespace check: walk the numbered
lines, skip lines without the target, stop at the per-check cap. -/
def wsLineLoop (ctx : CheckContext) (contains : Text → Bool)
    (mk : Nat → Text → Issue) : List (Nat × Text) → List Issue → List Issue
  | [], issues => issues
  | (line_no, line) :: rest, issues =>
    if (issues.length : ℤ) ≥ ctx.options.max_issues_per_check then issues
    else if contains line then
      wsLineLoop ctx contains mk rest (issues ++ [mk line_no line])
    else wsLineLoop ctx contains mk rest issues

/-- Translation of check_whitespace_formatting. -/
def check_whitespace_formatting (ctx : CheckContext) (max_points : ℚ) : CheckResult :=
  let trailing_matches :=
    ((List.enumFrom 1 ctx.lines).filter (fun p => hasTrailingWs p.2)).map (fun p => p.1)
  let doubles := countMatches mDoubleSpace ctx.text
  let tabs := strCount ("\t".toList) ctx.text
  let metrics : Metrics :=
    [("trailing_whitespace_lines", MVal.int trailing_matches.length),
     ("double_spaces", MVal.int doubles),
     ("tab_characters", MVal.int tabs)]
  let penalty : ℚ := 0.1 * trailing_matches.length + 0.05 * doubles + 0.1 * tabs
  let applied_penalty := min max_points penalty
  let metrics := setMetric metrics "penalty_points" (MVal.num (pyRound2 applied_penalty))
  let metrics := setMetric metrics "scoring_notes"
    (MVal.str "0.1 per trailing whitespace line, 0.05 per double space, 0.1 per tab.")
  let score := max_points - applied_penalty
  let issues := (pyTake trailing_matches ctx.options.max_issues_per_check).map
    (fun line_no =>
      let line := if line_no - 1 < ctx.lines.length then ctx.lines.getD (line_no - 1) [] else []
      let col : ℤ := if line.isEmpty then 1 else line.length
      let offset := if line_no - 1 < ctx.line_starts.length
        then ctx.line_starts.getD (line_no - 1) 0 else 0
      let page_no := if ctx.page_breaks.isEmpty then none
        else some (offset_to_page offset ctx.page_breaks)
      ({ check_id := "whitespace", message := "Trailing whitespace detected.",
         location := some (format_location line_no col
           (someIfNonempty ((pyStrip line).take 80)) page_no),
         line := some line_no, col := some col, page := page_no,
         snippet := someIfNonempty ((pyStrip line).take 200) } : Issue))
  let issues :=
    if 0 < doubles then
      let issues := issues ++ [({ check_id := "whitespace",
                                   message := toString doubles ++
                                     " double-space occurrence(s) detected. Consider single spacing." } : Issue)]
      wsLineLoop ctx (fun line => 0 < strCount ("  ".toList) line)
        (fun line_no line =>
          let col : ℤ := ((strFind ("  ".toList) line).getD 0 : Nat) + 1
          let snippet := (pyStrip line).take 80
          let offset : Nat := if line_no - 1 < ctx.line_starts.length
            then ctx.line_starts.getD (line_no - 1) 0 + (col - 1).toNat else 0
          let page_no := if ctx.page_breaks.isEmpty then none
            else some (offset_to_page offset ctx.page_breaks)
          { check_id := "whitespace", message := "Double space detected (sample).",
            location := some (format_location line_no col (someIfNonempty snippet) page_no),
            line := some line_no, col := some col, page := page_no,
            snippet := someIfNonempty snippet, highlight := some "  " })
        (List.enumFrom 1 ctx.lines) issues
    else issues
  let issues :=
    if 0 < tabs then
      let issues := issues ++ [({ check_id := "whitespace",
                                   message := toString tabs ++ " tab character(s) found. Use spaces for alignment." } : Issue)]
      wsLineLoop ctx (fun line => 0 < strCount ("\t".toList) line)
        (fun line_no line =>
          let col : ℤ := ((strFind ("\t".toList) line).getD 0 : Nat) + 1
          let snippet := (pyStrip line).take 80
          let offset : Nat := if line_no - 1 < ctx.line_starts.length
            then ctx.line_starts.getD (line_no - 1) 0 + (col - 1).toNat else 0
          let page_no := if ctx.page_breaks.isEmpty then none
            else some (offset_to_page offset ctx.page_breaks)
          { check_id := "whitespace", message := "Tab character detected (sample).",
            location := some (format_location line_no col (someIfNonempty snippet) page_no),
            line := some line_no, col := some col, page := page_no,
            snippet := someIfNonempty snippet, highlight := some "\\t" })
        (List.enumFrom 1 ctx.lines) issues
    else issues
  { check_id := "whitespace", name := "Whitespace and formatting",
    score := pyRound2 score, max_score := max_points, issues := issues,
    metrics := metrics, status := "ok" }

/-- Matcher for the search pattern of the percent-word style test: percent
between word boundaries, or per, optional whitespace, cent (the second
alternative carries no boundaries), case-insensitively. -/
def mSearchPercentWord (prev : Option Char) (t : Text) : Option Nat :=
  let alt1 : Option Nat :=
    if !boundaryBefore prev then none
    else
      match litPrefixCI ("percent".toList) t with
      | some (_, r) =>
        match r with
        | c :: _ => if isWordChar c then none else some 7
        | [] => some 7
      | none => none
  match alt1 with
  | some n => some n
  | none =>
    match litPrefixCI ("per".toList) t with
    | none => none
    | some (_, r) =>
      let s := runLen isPySpace r
      match litPrefixCI ("cent".toList) (r.drop s) with
      | none => none
      | some _ => some (3 + s + 4)

/-- Translation of check_percentage_consistency. -/
def check_percentage_consistency (ctx : CheckContext) (max_points : ℚ) : CheckResult :=
  let vals := percent_values ctx.text
  let pct := (vals.filter (fun v => 0 < strCount ("%".toList) v)).length
  let wordpct := (vals.filter (fun v => !(findSpans mSearchPercentWord v).isEmpty)).length
  let metrics : Metrics :=
    [("percent_symbol", MVal.int pct),
     ("percent_word", MVal.int wordpct),
     ("total_percent_mentions", MVal.int vals.length)]
  let penalty : ℚ := 0
  let penalty_reasons : List String := []
  let issues : List Issue := []
  let (penalty, penalty_reasons, issues) :=
    if 0 < pct ∧ 0 < wordpct then
      let issues := add_match_issues ctx issues "percentages"
        (findSpans mPercentSym ctx.text)
        (fun m => "Percent symbol style used (sample): " ++ m.asString) 3
      let issues := add_match_issues ctx issues "percentages"
        (findSpans mPercentWord ctx.text)
        (fun m => "Percent word style used (sample): " ++ m.asString) 3
      ((2.0 : ℚ), penalty_reasons ++ ["Mix of percent symbol and percent word styles (-2.0)."],
       issues)
    else (penalty, penalty_reasons, issues)
  let decimals := findSpans mDecimalPct ctx.text
  let integers := findSpans mIntPct ctx.text
  let (penalty, penalty_reasons, issues) :=
    if !decimals.isEmpty ∧ !integers.isEmpty then
      let issues := add_match_issues ctx issues "percentages" decimals
        (fun m => "Decimal percentage used (sample): " ++ m.asString) 3
      let issues := add_match_issues ctx issues "percentages" integers
        (fun m => "Whole-number percentage used (sample): " ++ m.asString) 3
      (penalty + 0.5,
       penalty_reasons ++ ["Mix of whole-number and decimal percentages (-0.5)."],
       issues)
    else (penalty, penalty_reasons, issues)
  let applied_penalty := min max_points penalty
  let metrics := setMetric metrics "penalty_points" (MVal.num (pyRound2 applied_penalty))
  let metrics :=
    if penalty_reasons.isEmpty then metrics
    else setMetric metrics "penalty_reasons" (MVal.strs penalty_reasons)
  let metrics := setMetric metrics "scoring_notes"
    (MVal.str "Penalties applied for inconsistent percentage styles.")
  let score := max_points - applied_penalty
  { check_id := "percentages", name := "Numbers and percentages consistency",
    score := pyRound2 score, max_score := max_points, issues := issues,
    metrics := metrics, status := "ok" }

/-- The anchored match of a markdown hash heading: one to six hashes, then
whitespace, then a non-space character. -/
def matchHashHeading (stripped : Text) : Bool :=
  let r := runLen (fun c => decide (c = '#')) stripped
  let s := runLen isPySpace (stripped.drop r)
  1 ≤ r ∧ r ≤ 6 ∧ 1 ≤ s ∧ !(stripped.drop (r + s)).isEmpty

/-- The substitution removing the hash marker (applied only to lines where
the heading pattern matched). -/
def dropHashMarker (stripped : Text) : Text :=
  let r := runLen (fun c => decide (c = '#')) stripped
  if 1 ≤ r ∧ r ≤ 6 ∧ 1 ≤ runLen isPySpace (stripped.drop r) then
    (stripped.drop r).dropWhile isPySpace
  else stripped

/-- Translation of str.isupper() for the ASCII range: at least one cased
character and no lowercase cased character. -/
def pyIsUpper (t : Text) : Bool :=
  t.any Char.isAlpha && t.all (fun c => !c.isAlpha || c.isUpper)

/-- The full-line match of an underline: three or more equals signs or
hyphens and nothing else. -/
def isUnderline (t : Text) : Bool :=
  3 ≤ t.length ∧ t.all (fun c => decide (c = '=' ∨ c = '-'))

/-- The heading candidate produced by one line of check_headings_capitalization,
if any. -/
def headingOfLine (lines : List Text) (i : Nat) (line : Text) : Option (Nat × Text) :=
  let stripped := pyStrip line
  if stripped.isEmpty then none
  else if matchHashHeading stripped then some (i + 1, dropHashMarker stripped)
  else if stripped.getLastD ' ' = ':' ∧ stripped.length < 80 then
    some (i + 1, pyStrip (stripped.take (stripped.length - 1)))
  else if pyIsUpper stripped ∧ stripped.length < 60 then some (i + 1, stripped)
  else if i + 1 < lines.length ∧ isUnderline (pyStrip (lines.getD (i + 1) [])) then
    some (i + 1, stripped)
  else none

/-- Translation of check_headings_capitalization. -/
def check_headings_capitalization (ctx : CheckContext) (max_points : ℚ) : CheckResult :=
  let lines := ctx.lines
  let headings := (List.enumFrom 0 lines).filterMap
    (fun p => headingOfLine lines p.1 p.2)
  let metrics : Metrics := [("probable_headings", MVal.int headings.length)]
  let offenders := headings.filter (fun p =>
    match p.2 with
    | c :: _ => c.isLower
    | [] => false)
  let bad := offenders.length
  let issues := offenders.map (fun p =>
    let line_no := p.1
    let heading := p.2
    let offset := if line_no - 1 < ctx.line_starts.length
      then ctx.line_starts.getD (line_no - 1) 0 else 0
    let page_no := if ctx.page_breaks.isEmpty then none
      else some (offset_to_page offset ctx.page_breaks)
    ({ check_id := "headings", message := "Heading may not be capitalized.",
       location := some (format_location line_no 1
         (some (heading.take 80).asString) page_no),
       line := some line_no, col := some 1, page := page_no,
       snippet := some (heading.take 200).asString } : Issue))
  let penalty := min max_points ((bad : ℚ) * 0.5)
  let metrics := setMetric metrics "penalty_points" (MVal.num (pyRound2 penalty))
  let metrics := setMetric metrics "scoring_notes"
    (MVal.str "0.5 points per heading starting with lowercase (capped).")
  let score := max_points - penalty
  { check_id := "headings", name := "Headings and capitalization",
    score := pyRound2 score, max_score := max_points, issues := issues,
    metrics := metrics, status := "ok" }

/-- Translation of check_passive_voice. -/
def check_passive_voice (ctx : CheckContext) (max_points : ℚ) : CheckResult :=
  let passiveMatches := findSpans mPassive ctx.text
  let metrics : Metrics := [("passive_like_phrases", MVal.int passiveMatches.length)]
  let penalty := min max_points ((passiveMatches.length : ℚ) * 0.05)
  let metrics := setMetric metrics "penalty_points" (MVal.num (pyRound2 penalty))
  let metrics := setMetric metrics "scoring_notes"
    (MVal.str "0.05 points per passive-like phrase (capped).")
  let score := max_points - penalty
  let issues := (pyTake passiveMatches ctx.options.max_issues_per_check).map (fun p =>
    let phrase := pySlice ctx.text p.1 p.2
    issue_from_span ctx "passive_voice"
      ("Possible passive construction: " ++ apoChar.toString ++ phrase.asString ++
        apoChar.toString) p.1 p.2 80)
  { check_id := "passive_voice", name := "Passive voice (heuristic)",
    score := pyRound2 score, max_score := max_points, issues := issues,
    metrics := metrics, status := "ok" }

/-- The anchored bullet pattern: optional whitespace, a bullet character or
digits with a dot or parenthesis, then at least one whitespace. -/
def bulletMatch (line : Text) : Bool :=
  let s := runLen isPySpace line
  let r := line.drop s
  match r with
  | c :: rest =>
    if decide (c = '-' ∨ c = '*' ∨ c = '+' ∨ c = '•') then 0 < runLen isPySpace rest
    else
      let d := runLen Char.isDigit r
      if d = 0 then false
      else
        match r.drop d with
        | p :: rest2 => decide (p = '.' ∨ p = ')') && 0 < runLen isPySpace rest2
        | [] => false
  | [] => false

/-- The block grouping of check_parallel_bullets: consecutive bullet lines
form a block, blocks of at least three stripped items are kept, in order. -/
def bulletBlocks : List (Nat × Text) → List (Nat × Text) → List (List (Nat × Text))
  | [], block => if 3 ≤ block.length then [block.reverse] else []
  | (idx, ln) :: rest, block =>
    if bulletMatch ln then bulletBlocks rest ((idx, pyStrip ln) :: block)
    else (if 3 ≤ block.length then [block.reverse] else []) ++ bulletBlocks rest []

/-- The lookup list of common base verbs of classify_start. -/
def common_base_verbs : List Text :=
  ["use", "add", "ensure", "consider", "avoid", "include", "provide",
   "attend", "highlight", "outline", "emphasize", "leverage", "budget",
   "remember", "keep", "create", "define", "verify", "review"].map String.toList

/-- The determiner list of classify_start. -/
def determiners : List Text :=
  ["a", "an", "the", "this", "that", "these", "those"].map String.toList

/-- Translation of classify_start. -/
def classify_start (token : Text) : String :=
  let t := token.map Char.toLower
  if (litPrefix ("gni".toList) t.reverse).isSome then "GERUND"
  else if common_base_verbs.any (fun w => w = t) then "IMPERATIVE"
  else if determiners.any (fun w => w = t) then "NOUNPHRASE"
  else "OTHER"

/-- The classified start categories of the items of a block. -/
def blockStarts (blk : List (Nat × Text)) : List String :=
  blk.map (fun p =>
    let first := word_tokens (p.2.take 60)
    classify_start (first.headD []))

/-- Translation of check_parallel_bullets. -/
def check_parallel_bullets (ctx : CheckContext) (max_points : ℚ) : CheckResult :=
  let blocks := bulletBlocks (List.enumFrom 1 ctx.lines) []
  let inconsistent := blocks.filter (fun blk => 1 < (blockStarts blk).dedup.length)
  let inconsistent_blocks := inconsistent.length
  let issues := inconsistent.map (fun blk =>
    let categories := ((blockStarts blk).dedup.mergeSort (fun a b => decide (a ≤ b)))
    let sample_lines := String.intercalate ", " ((blk.take 3).map (fun p => toString p.1))
    let sample_items := String.intercalate " | " ((blk.take 3).map (fun p => p.2.asString))
    let first_line_no := (blk.headD (0, [])).1
    let offset := if first_line_no - 1 < ctx.line_starts.length
      then ctx.line_starts.getD (first_line_no - 1) 0 else 0
    let page_no := if ctx.page_breaks.isEmpty then none
      else some (offset_to_page offset ctx.page_breaks)
    let tail3 := if 3 < blk.length then " ..." else ""
    ({ check_id := "parallel_lists",
       message := "Bullet list with mixed starts (" ++
         String.intercalate ", " categories ++ "). Consider making items parallel.",
       location := some (format_location first_line_no 1
         (some ("Lines " ++ sample_lines ++ ": " ++ sample_items ++ tail3)) page_no),
       line := some first_line_no, col := some 1, page := page_no,
       snippet := some (sample_items ++ tail3) } : Issue))
  let metrics : Metrics :=
    [("bullet_blocks_3plus", MVal.int blocks.length),
     ("inconsistent_blocks", MVal.int inconsistent_blocks)]
  let penalty := min max_points ((inconsistent_blocks : ℚ) * 2.0)
  let metrics := setMetric metrics "penalty_points" (MVal.num (pyRound2 penalty))
  let metrics := setMetric metrics "scoring_notes"
    (MVal.str "2 points per inconsistent bullet block (capped).")
  let score := max_points - penalty
  { check_id := "parallel_lists", name := "Parallel structure in lists",
    score := pyRound2 score, max_score := max_points, issues := issues,
    metrics := metrics, status := "ok" }

/-- Translation of check_links_formatting. -/
def check_links_formatting (ctx : CheckContext) (max_points : ℚ) : CheckResult :=
  let raw_urls := findSpans mRawUrl ctx.text
  let markdown_links := findSpans mMarkdownLink ctx.text
  let metrics : Metrics :=
    [("raw_urls", MVal.int raw_urls.length),
     ("markdown_or_hyperlinks", MVal.int markdown_links.length)]
  let penalty : ℚ := 0
  let penalty_reasons : List String := []
  let issues : List Issue := []
  let (penalty, penalty_reasons, issues) :=
    if !raw_urls.isEmpty ∧ markdown_links.isEmpty then
      ((2.0 : ℚ), penalty_reasons ++ ["Raw URLs shown instead of hyperlinks (-2.0)."],
       add_match_issues ctx issues "links" raw_urls
         (fun m => "Raw URL found (sample): " ++ m.asString) 3)
    else (penalty, penalty_reasons, issues)
  let applied_penalty := min max_points penalty
  let metrics := setMetric metrics "penalty_points" (MVal.num (pyRound2 applied_penalty))
  let metrics :=
    if penalty_reasons.isEmpty then metrics
    else setMetric metrics "penalty_reasons" (MVal.strs penalty_reasons)
  let metrics := setMetric metrics "scoring_notes"
    (MVal.str "Penalty applies when raw URLs appear without hyperlinks.")
  let score := max_points - applied_penalty
  { check_id := "links", name := "Links and citation formatting",
    score := pyRound2 score, max_score := max_points, issues := issues,
    metrics := metrics, status := "ok" }

/-- Previous character before index i, for word boundaries. -/
def prevCharAt (t : Text) (i : Nat) : Option Char :=
  if i = 0 then none else t[i - 1]?

/-- The character class letters, ampersand, slash, space, hyphen of the
first definition pattern. -/
def classAmp (c : Char) : Bool :=
  c.isAlpha || decide (c = '&' ∨ c = '/' ∨ c = ' ' ∨ c = '-')

/-- Existence of a match of the first definition pattern: a word boundary,
a letter, two to eighty class characters, whitespace, then the acronym in
parentheses.  A bounded existential search is equivalent to re.search for
the existence test. -/
def acrDefPattern1 (t ac : Text) : Bool :=
  (List.range t.length).any (fun i =>
    boundaryBefore (prevCharAt t i) &&
    (match t[i]? with | some c => c.isAlpha | none => false) &&
    ((List.range' 2 79).any (fun k =>
      decide ((pySlice t (i + 1) (i + 1 + k)).length = k) &&
      (pySlice t (i + 1) (i + 1 + k)).all classAmp &&
      (let rest := t.drop (i + 1 + k)
       let s := runLen isPySpace rest
       decide (0 < s) &&
         (litPrefix ('(' :: (ac ++ [')'])) (rest.drop s)).isSome))))

/-- Existence of a match of the second definition pattern: a word boundary,
the acronym, whitespace, then a parenthesized expansion starting with a
letter. -/
def acrDefPattern2 (t ac : Text) : Bool :=
  (List.range t.length).any (fun i =>
    boundaryBefore (prevCharAt t i) &&
    (match litPrefix ac (t.drop i) with
     | some r =>
       let s := runLen isPySpace r
       decide (0 < s) &&
         (match r.drop s with
          | '(' :: c :: rest2 =>
            c.isAlpha &&
              (let b := runLen (fun x => decide (x ≠ ')')) rest2
               decide (0 < b) &&
                 (match rest2.drop b with | ')' :: _ => true | _ => false))
          | _ => false)
     | none => false))

/-- Translation of _acronym_defined. -/
def _acronym_defined (t ac : Text) : Bool :=
  acrDefPattern1 t ac || acrDefPattern2 t ac

/-- The stoplist of check_acronym_definitions. -/
def acronymStop : List Text :=
  ["USA", "US", "U.S", "PDF", "DOCX", "CEO", "CFO", "FYI", "ETA", "HTML",
   "HTTP", "HTTPS"].map String.toList

/-- Translation of check_acronym_definitions. -/
def check_acronym_definitions (ctx : CheckContext) (max_points : ℚ) : CheckResult :=
  let found := ((findSpans mAcronym ctx.text).map
    (fun p => pySlice ctx.text p.1 p.2)).dedup
  let acronyms := found.filter (fun a => !acronymStop.any (fun s => s = a))
  let sortedAcros := acronyms.mergeSort (fun a b => decide (a.asString ≤ b.asString))
  let undefined := sortedAcros.filter (fun ac => !_acronym_defined ctx.text ac)
  let metrics : Metrics :=
    [("acronyms_found", MVal.int acronyms.length),
     ("acronyms_undefined", MVal.int undefined.length)]
  let penalty := min max_points ((1.0 : ℚ) * (undefined.take 5).length)
  let metrics := setMetric metrics "penalty_points" (MVal.num (pyRound2 penalty))
  let metrics := setMetric metrics "scoring_notes"
    (MVal.str "1 point per undefined acronym (capped at 5).")
  let score := max_points - penalty
  let issues := (pyTake undefined ctx.options.max_issues_per_check).map (fun ac =>
    let msg := "Acronym " ++ apoChar.toString ++ ac.asString ++ apoChar.toString ++
      " appears without a nearby definition (e.g., " ++ apoChar.toString ++
      "Name (" ++ ac.asString ++ ")" ++ apoChar.toString ++ ")."
    match (findSpans (mExactWord ac) ctx.text).head? with
    | some p => issue_from_span ctx "acronyms" msg p.1 p.2 80
    | none => ({ check_id := "acronyms", message := msg } : Issue))
  { check_id := "acronyms", name := "Acronym definitions",
    score := pyRound2 score, max_score := max_points, issues := issues,
    metrics := metrics, status := "ok" }

/-- The pure check procedures of this registry never raise; pure lifts them
into the Except-valued procedure type of CheckSpec. -/
def pureCheck (f : CheckContext → ℚ → CheckResult) :
    CheckContext → ℚ → Except String CheckResult :=
  fun ctx w => Except.ok (f ctx w)

/-- Translation of the CHECKS registry, in registration order. -/
def CHECKS : List CheckSpec :=
  [⟨"language_tool", "Grammar and style (LanguageTool)", 35.0, pureCheck check_language_tool⟩,
   ⟨"readability", "Readability", 10.0, pureCheck check_readability⟩,
   ⟨"punctuation", "Punctuation and style", 10.0, pureCheck check_punctuation_style⟩,
   ⟨"whitespace", "Whitespace and formatting", 5.0, pureCheck check_whitespace_formatting⟩,
   ⟨"percentages", "Numbers and percentages consistency", 5.0, pureCheck check_percentage_consistency⟩,
   ⟨"headings", "Headings and capitalization", 5.0, pureCheck check_headings_capitalization⟩,
   ⟨"passive_voice", "Passive voice (heuristic)", 5.0, pureCheck check_passive_voice⟩,
   ⟨"parallel_lists", "Parallel structure in lists", 10.0, pureCheck check_parallel_bullets⟩,
   ⟨"links", "Links and citation formatting", 5.0, pureCheck check_links_formatting⟩,
   ⟨"acronyms", "Acronym definitions", 10.0, pureCheck check_acronym_definitions⟩]

/-- The per-check loop of aggregate_report: run the checks in order,
accumulating results, available weight and total score; an exception from a
procedure short-circuits, as the source wraps no handler around the calls. -/
def runChecksLoop (ctx : CheckContext) (strict : Bool) :
    List CheckSpec → Except String (List CheckResult × ℚ × ℚ)
  | [] => Except.ok ([], 0, 0)
  | check :: rest =>
    match check.func ctx check.weight with
    | Except.error e => Except.error e
    | Except.ok result =>
      match runChecksLoop ctx strict rest with
      | Except.error e => Except.error e
      | Except.ok (rs, aw, ts) =>
        if result.status = "ok" then
          Except.ok (result :: rs, check.weight + aw, result.score + ts)
        else if strict then Except.ok (result :: rs, check.weight + aw, ts)
        else Except.ok (result :: rs, aw, ts)

/-- The issue-budget truncation loop of aggregate_report: walk the results
in registration order carrying the remaining budget; a result met with an
exhausted budget is cleared and annotated, a result exceeding the budget is
cut to it, anything else only decreases the budget. -/
def truncateLoop (remaining : ℤ) : List CheckResult → List CheckResult
  | [] => []
  | r :: rest =>
    if remaining ≤ 0 then
      (if r.issues.isEmpty then r
       else { r with
         metrics := setMetric r.metrics "issues_truncated" (MVal.int r.issues.length),
         issues := [] }) :: truncateLoop remaining rest
    else if remaining < (r.issues.length : ℤ) then
      { r with
        metrics := setMetric r.metrics "issues_truncated"
          (MVal.int ((r.issues.length : ℤ) - remaining)),
        issues := r.issues.take remaining.toNat } :: truncateLoop 0 rest
    else r :: truncateLoop (remaining - (r.issues.length : ℤ)) rest

/-- Translation of aggregate_report.  The summary and doc_info outputs are
omitted, see AuditReport. -/
def aggregate_report (file_path : String) (text : Text) (language : String)
    (options : AuditOptions) (enabled_checks : List CheckSpec) :
    Except String AuditReport :=
  let ctx := build_context text language options
  let total_weight := (enabled_checks.map (fun c => c.weight)).sum
  match runChecksLoop ctx options.strict enabled_checks with
  | Except.error e => Except.error e
  | Except.ok (results0, available_weight, total_score) =>
    let results :=
      if options.max_issues ≠ 0 ∧ 0 < options.max_issues then
        truncateLoop options.max_issues results0
      else results0
    let coverage : ℚ :=
      if total_weight ≠ 0 then 100.0 * available_weight / total_weight else 0.0
    let normalized_score : ℚ :=
      if 0 < available_weight then pyRound2 (100 * total_score / available_weight)
      else 0.0
    Except.ok { file_path := file_path, language := language,
                total_score := normalized_score, coverage := pyRound2 coverage,
                check_results := results }

/-- The weight a check contributes to the score denominator, stated from
the results: its weight when its result has ok status, its weight under
strict mode for any other status, zero otherwise. -/
def contribWeight (strict : Bool) : List (CheckSpec × CheckResult) → ℚ
  | [] => 0
  | (c, r) :: rest =>
    (if r.status = "ok" ∨ strict then c.weight else 0) + contribWeight strict rest

/-- Sum of the scores of the ok-status results. -/
def okScoreSum : List CheckResult → ℚ
  | [] => 0
  | r :: rest => (if r.status = "ok" then r.score else 0) + okScoreSum rest

/-- The argparse defaults of the CLI with no flags given. -/
def defaultOptions : AuditOptions :=
  { max_issues := 0, max_issues_per_check := 50, lt_chunk_size := 8000,
    lt_overlap := 200, strict := false, enable_langtool := true,
    ocr_mode := "off", ocr_lang := "eng", ocr_dpi := 300, ocr_min_chars := 600 }

/-- The enabled sublist main computes for --enable punctuation,whitespace. -/
def scenarioChecks : List CheckSpec :=
  CHECKS.filter (fun c => decide (c.check_id = "punctuation" ∨ c.check_id = "whitespace"))

/-- The scenario input text of the specification. -/
def scenarioText : Text := "This is a test!! It has    double   spaces.\t\n".toList

/-- The bullet-list scenario input text of the specification. -/
def bulletScenarioText : Text := "- Running fast\n- Jump high\n- The quick fox\n".toList

/-- A check procedure that always raises, an admissible CheckSpec value
exercising the exception path of the aggregator. -/
def raisingSpec : CheckSpec :=
  { check_id := "boom", name := "Boom", weight := 5.0,
    func := fun _ _ => Except.error "boom" }

/-- The enabled sublist main computes for --enable punctuation. -/
def scenarioChecksNoWs : List CheckSpec :=
  CHECKS.filter (fun c => decide (c.check_id = "punctuation"))

/-- An admissible issue value, for exercising the truncation walk. -/
def dummyIssue : Issue := { check_id := "d", message := "m" }

/-- A two-result list with three issues total, for exercising the
truncation walk under a budget of one. -/
def rsW : List CheckResult :=
  [{ check_id := "a", name := "A", score := 1, max_score := 1,
     issues := [dummyIssue, dummyIssue], metrics := [], status := "ok" },
   { check_id := "b", name := "B", score := 1, max_score := 1,
     issues := [dummyIssue], metrics := [], status := "ok" }]

/-- The issue budget remaining when the truncation walk reaches position i:
the initial budget minus the issues kept on the earlier results. -/
def remainingAt (M : ℤ) (rs : List CheckResult) (i : Nat) : ℤ :=
  M - (((truncateLoop M rs).take i).map (fun r => (r.issues.length : ℤ))).sum

/-- An admissible check result value, as a lookup default. -/
def dummyResult : CheckResult :=
  { check_id := "d", name := "D", score := 0, max_score := 0, issues := [],
    metrics := [], status := "ok" }

/-- The argparse defaults with --max-issues 1. -/
def optW : AuditOptions := { defaultOptions with max_issues := 1 }

theorem roundHalfEven_bounds (x : ℚ) :
    ⌊x⌋ ≤ roundHalfEven x ∧ roundHalfEven x ≤ ⌊x⌋ + 1 := by
  unfold roundHalfEven
  split_ifs <;> omega

theorem roundHalfEven_mono {x y : ℚ} (h : x ≤ y) :
    roundHalfEven x ≤ roundHalfEven y := by
  have hf : ⌊x⌋ ≤ ⌊y⌋ := Int.floor_le_floor h
  rcases lt_or_eq_of_le hf with hlt | heq
  · have h1 := (roundHalfEven_bounds x).2
    have h2 := (roundHalfEven_bounds y).1
    omega
  · unfold roundHalfEven
    rw [← heq]
    have hfr : x - (⌊x⌋ : ℚ) ≤ y - (⌊x⌋ : ℚ) := by linarith
    split_ifs <;> first | omega | linarith

theorem roundHalfEven_intCast (n : ℤ) : roundHalfEven (n : ℚ) = n := by
  unfold roundHalfEven
  rw [Int.floor_intCast]
  have : (n : ℚ) - (n : ℚ) = 0 := by ring
  rw [this]
  norm_num

theorem pyRound2_mono {x y : ℚ} (h : x ≤ y) : pyRound2 x ≤ pyRound2 y := by
  unfold pyRound2
  have h100 : (100 : ℚ) * x ≤ 100 * y := by linarith
  have := roundHalfEven_mono h100
  have hc : ((roundHalfEven (100 * x) : ℚ)) ≤ (roundHalfEven (100 * y) : ℚ) :=
    Int.cast_le.mpr this
  have hpos : (0 : ℚ) ≤ 100 := by norm_num
  exact div_le_div_of_nonneg_right hc hpos

theorem pyRound2_intCast (n : ℤ) : pyRound2 (n : ℚ) = n := by
  unfold pyRound2
  have : (100 : ℚ) * n = ((100 * n : ℤ) : ℚ) := by push_cast; ring
  rw [this, roundHalfEven_intCast]
  push_cast
  field_simp

theorem pyRound2_nonneg {x : ℚ} (h : 0 ≤ x) : 0 ≤ pyRound2 x := by
  have := pyRound2_mono h
  rwa [show ((0 : ℚ) = ((0 : ℤ) : ℚ)) by norm_num, pyRound2_intCast] at this

theorem pyRound2_le_intCast {x : ℚ} {n : ℤ} (h : x ≤ (n : ℚ)) :
    pyRound2 x ≤ (n : ℚ) := by
  have := pyRound2_mono h
  rwa [pyRound2_intCast] at this

theorem nfcDecomp_ne_nil (c : Char) : nfcDecomp c ≠ [] := by
  unfold nfcDecomp; split <;> simp

theorem bind_nfcDecomp_eq_nil {l : List Char} (h : l.flatMap nfcDecomp = []) :
    l = [] := by
  cases l with
  | nil => rfl
  | cons a l =>
    exfalso
    have := nfcDecomp_ne_nil a
    simp [List.flatMap] at h
    exact this h.1

theorem nfcCompose_head (a : Char) (l : List Char) :
    (nfcCompose (a :: l)).head? = some a ∨
      (nfcCompose (a :: l)).head? = some '\u00e9' := by
  cases l with
  | nil => left; rfl
  | cons b rest =>
    rw [nfcCompose]
    split
    · right; rfl
    · left; rfl

theorem chain_nfcCompose (y : List Char) : List.Chain' noCompose (nfcCompose y) := by
  induction y using nfcCompose.induct with
  | case1 => simp [nfcCompose]
  | case2 a => simp [nfcCompose]
  | case3 a b rest h ih =>
    rw [nfcCompose, if_pos h]
    refine List.chain'_cons'.mpr ⟨?_, ih⟩
    intro y hy hcon
    exact absurd hcon.1 (by decide)
  | case4 a b rest h ih =>
    rw [nfcCompose, if_neg h]
    refine List.chain'_cons'.mpr ⟨?_, ih⟩
    intro y hy
    rw [Option.mem_def] at hy
    rcases nfcCompose_head b rest with h1 | h1 <;> rw [h1] at hy <;>
        injection hy with hy
    · exact hy ▸ h
    · intro hcon
      rw [← hy] at hcon
      exact absurd hcon.2 (by decide)

theorem nfc_eq_self_of_chain {y : Text} (h : List.Chain' noCompose y) :
    nfc y = y := by
  unfold nfc
  induction y with
  | nil => rfl
  | cons a rest ih =>
    have hrest : List.Chain' noCompose rest := h.tail
    by_cases ha : a = '\u00e9'
    · subst ha
      have hstep : ('\u00e9' :: rest).flatMap nfcDecomp =
          'e' :: '\u0301' :: rest.flatMap nfcDecomp := by
        rw [List.flatMap_cons]
        rw [show nfcDecomp '\u00e9' = ['e', '\u0301'] from rfl]
        rfl
      rw [hstep, nfcCompose, if_pos ⟨rfl, rfl⟩, ih hrest]
    · have hd : nfcDecomp a = [a] := by unfold nfcDecomp; rw [if_neg ha]
      have hstep : (a :: rest).flatMap nfcDecomp = a :: rest.flatMap nfcDecomp := by
        rw [List.flatMap_cons, hd]; rfl
      rw [hstep]
      cases hz : rest.flatMap nfcDecomp with
      | nil =>
        have hre : rest = [] := bind_nfcDecomp_eq_nil hz
        subst hre
        rfl
      | cons b z =>
        rw [nfcCompose, if_neg ?hne, ← hz, ih hrest]
        case hne =>
          rintro ⟨hae, hb⟩
          cases rest with
          | nil => simp at hz
          | cons r rest' =>
            rw [List.flatMap_cons] at hz
            by_cases hr : r = '\u00e9'
            · subst hr
              rw [show nfcDecomp '\u00e9' = ['e', '\u0301'] from rfl] at hz
              have : b = 'e' := by
                have := congrArg List.head? hz
                simpa using this.symm
              rw [this] at hb
              exact absurd hb (by decide)
            · rw [show nfcDecomp r = [r] by unfold nfcDecomp; rw [if_neg hr]] at hz
              have hbr : b = r := by
                have := congrArg List.head? hz
                simpa using this.symm
              have hpair : noCompose a r := (List.chain'_cons.mp h).1
              exact hpair ⟨hae, by rw [← hbr]; exact hb⟩

theorem replaceCrLf_head (a : Char) (l : List Char) :
    (replaceCrLf (a :: l)).head? = some a ∨
      (replaceCrLf (a :: l)).head? = some '\n' := by
  cases l with
  | nil => left; rfl
  | cons b rest =>
    rw [replaceCrLf]
    split
    · right; rfl
    · left; rfl

theorem chain_replaceCrLf {t : Text} (h : List.Chain' noCompose t) :
    List.Chain' noCompose (replaceCrLf t) := by
  induction t using replaceCrLf.induct with
  | case1 => simp [replaceCrLf]
  | case2 c => simp [replaceCrLf]
  | case3 c d rest hcd ih =>
    rw [replaceCrLf, if_pos hcd]
    refine List.chain'_cons'.mpr ⟨?_, ih h.tail.tail⟩
    intro y hy hcon
    exact absurd hcon.1 (by decide)
  | case4 c d rest hcd ih =>
    rw [replaceCrLf, if_neg hcd]
    refine List.chain'_cons'.mpr ⟨?_, ih h.tail⟩
    intro y hy
    rw [Option.mem_def] at hy
    rcases replaceCrLf_head d rest with h1 | h1 <;> rw [h1] at hy <;>
        injection hy with hy
    · exact hy ▸ (List.chain'_cons.mp h).1
    · intro hcon
      rw [← hy] at hcon
      exact absurd hcon.2 (by decide)

theorem chain_replaceCr {t : Text} (h : List.Chain' noCompose t) :
    List.Chain' noCompose (replaceCr t) := by
  unfold replaceCr
  rw [List.chain'_map]
  refine h.imp ?_
  intro a b hab hcon
  rcases hcon with ⟨h1, h2⟩
  apply hab
  constructor
  · by_cases hr : a = '\r'
    · rw [if_pos hr] at h1; exact absurd h1 (by decide)
    · rwa [if_neg hr] at h1
  · by_cases hr : b = '\r'
    · rw [if_pos hr] at h2; exact absurd h2 (by decide)
    · rwa [if_neg hr] at h2

theorem strip_head_of_leadsToNl {t : Text} (h : leadsToNl t = true) :
    (stripWsBeforeNl t).head? = some '\n' := by
  induction t with
  | nil => simp [leadsToNl] at h
  | cons c rest ih =>
    rw [stripWsBeforeNl]
    by_cases hb : isBlankChar c = true
    · rw [leadsToNl, if_pos hb] at h
      rw [if_pos (by rw [hb, h]; rfl)]
      exact ih h
    · rw [leadsToNl, if_neg hb] at h
      have hc : c = '\n' := by simpa using h
      rw [if_neg (by simp [Bool.eq_false_iff.mpr hb])]
      simp [hc]

theorem strip_head (t : Text) :
    (stripWsBeforeNl t).head? = t.head? ∨
      (stripWsBeforeNl t).head? = some '\n' := by
  cases t with
  | nil => left; rfl
  | cons c rest =>
    rw [stripWsBeforeNl]
    by_cases hcl : (isBlankChar c && leadsToNl rest) = true
    · rw [if_pos hcl]
      right
      exact strip_head_of_leadsToNl (by
        have := hcl
        rw [Bool.and_eq_true] at this
        exact this.2)
    · rw [if_neg hcl]
      left; rfl

theorem chain_strip {t : Text} (h : List.Chain' noCompose t) :
    List.Chain' noCompose (stripWsBeforeNl t) := by
  induction t with
  | nil => simp [stripWsBeforeNl]
  | cons c rest ih =>
    rw [stripWsBeforeNl]
    by_cases hcl : (isBlankChar c && leadsToNl rest) = true
    · rw [if_pos hcl]
      exact ih h.tail
    · rw [if_neg hcl]
      refine List.chain'_cons'.mpr ⟨?_, ih h.tail⟩
      intro y hy
      rw [Option.mem_def] at hy
      rcases strip_head rest with h1 | h1 <;> rw [h1] at hy
      · cases rest with
        | nil => simp at hy
        | cons d rest' =>
          injection hy with hy
          exact hy ▸ (List.chain'_cons.mp h).1
      · injection hy with hy
        intro hcon
        rw [← hy] at hcon
        exact absurd hcon.2 (by decide)

theorem strip_sublist (t : Text) : (stripWsBeforeNl t).Sublist t := by
  induction t with
  | nil => simp [stripWsBeforeNl]
  | cons c rest ih =>
    rw [stripWsBeforeNl]
    by_cases hcl : (isBlankChar c && leadsToNl rest) = true
    · rw [if_pos hcl]
      exact ih.cons c
    · rw [if_neg hcl]
      exact ih.cons₂ c

theorem leadsToNl_strip (t : Text) : leadsToNl (stripWsBeforeNl t) = leadsToNl t := by
  induction t with
  | nil => rfl
  | cons c rest ih =>
    rw [stripWsBeforeNl]
    by_cases hcl : (isBlankChar c && leadsToNl rest) = true
    · rw [if_pos hcl]
      rw [Bool.and_eq_true] at hcl
      rw [ih, leadsToNl, if_pos hcl.1, hcl.2]
    · rw [if_neg hcl]
      by_cases hb : isBlankChar c = true
      · simp only [leadsToNl, if_pos hb]
        exact ih
      · simp only [leadsToNl, if_neg hb]

theorem strip_strip (t : Text) :
    stripWsBeforeNl (stripWsBeforeNl t) = stripWsBeforeNl t := by
  induction t with
  | nil => rfl
  | cons c rest ih =>
    rw [stripWsBeforeNl]
    by_cases hcl : (isBlankChar c && leadsToNl rest) = true
    · rw [if_pos hcl]; exact ih
    · rw [if_neg hcl, stripWsBeforeNl,
        if_neg (by rw [leadsToNl_strip]; exact hcl), ih]

theorem mem_replaceCrLf {c : Char} {t : Text} (h : c ∈ replaceCrLf t) :
    c ∈ t ∨ c = '\n' := by
  induction t using replaceCrLf.induct with
  | case1 => simp [replaceCrLf] at h
  | case2 d => rw [replaceCrLf] at h; left; exact h
  | case3 a b rest hab ih =>
    rw [replaceCrLf, if_pos hab] at h
    rcases List.mem_cons.mp h with h1 | h1
    · right; exact h1
    · rcases ih h1 with h2 | h2
      · left; exact List.mem_cons_of_mem _ (List.mem_cons_of_mem _ h2)
      · right; exact h2
  | case4 a b rest hab ih =>
    rw [replaceCrLf, if_neg hab] at h
    rcases List.mem_cons.mp h with h1 | h1
    · left; exact h1 ▸ List.mem_cons_self _ _
    · rcases ih h1 with h2 | h2
      · left; exact List.mem_cons_of_mem _ h2
      · right; exact h2

theorem mem_replaceCr {c : Char} {t : Text} (h : c ∈ replaceCr t) :
    c ∈ t ∨ c = '\n' := by
  unfold replaceCr at h
  rcases List.mem_map.mp h with ⟨a, ha, hfa⟩
  by_cases hr : a = '\r'
  · rw [if_pos hr] at hfa; right; exact hfa.symm
  · rw [if_neg hr] at hfa; left; exact hfa ▸ ha

theorem mem_nfcCompose {c : Char} {y : List Char} (h : c ∈ nfcCompose y) :
    c ∈ y ∨ c = '\u00e9' := by
  induction y using nfcCompose.induct with
  | case1 => simp [nfcCompose] at h
  | case2 a => rw [nfcCompose] at h; left; exact h
  | case3 a b rest hab ih =>
    rw [nfcCompose, if_pos hab] at h
    rcases List.mem_cons.mp h with h1 | h1
    · right; exact h1
    · rcases ih h1 with h2 | h2
      · left; exact List.mem_cons_of_mem _ (List.mem_cons_of_mem _ h2)
      · right; exact h2
  | case4 a b rest hab ih =>
    rw [nfcCompose, if_neg hab] at h
    rcases List.mem_cons.mp h with h1 | h1
    · left; exact h1 ▸ List.mem_cons_self _ _
    · rcases ih h1 with h2 | h2
      · left; exact List.mem_cons_of_mem _ h2
      · right; exact h2

theorem mem_flatMap_decomp {c : Char} {y : List Char}
    (h : c ∈ y.flatMap nfcDecomp) : c ∈ y ∨ c = 'e' ∨ c = '\u0301' := by
  rcases List.mem_flatMap.mp h with ⟨a, ha, hc⟩
  unfold nfcDecomp at hc
  split at hc
  · rcases List.mem_cons.mp hc with h1 | h1
    · right; left; exact h1
    · right; right; simpa using h1
  · left
    have : c = a := by simpa using hc
    exact this ▸ ha

theorem mem_nfc {c : Char} {t : Text} (h : c ∈ nfc t) :
    c ∈ t ∨ c = 'e' ∨ c = '\u0301' ∨ c = '\u00e9' := by
  unfold nfc at h
  rcases mem_nfcCompose h with h1 | h1
  · rcases mem_flatMap_decomp h1 with h2 | h2 | h2
    · left; exact h2
    · right; left; exact h2
    · right; right; left; exact h2
  · right; right; right; exact h1

theorem replaceCrLf_eq_self {t : Text} (h : '\r' ∉ t) : replaceCrLf t = t := by
  induction t using replaceCrLf.induct with
  | case1 => rfl
  | case2 c => rfl
  | case3 a b rest hab ih =>
    exfalso
    apply h
    rw [← hab.1]
    exact List.mem_cons_self _ _
  | case4 a b rest hab ih =>
    rw [replaceCrLf, if_neg hab, ih (fun hm => h (List.mem_cons_of_mem _ hm))]

theorem replaceCr_eq_self {t : Text} (h : '\r' ∉ t) : replaceCr t = t := by
  unfold replaceCr
  induction t with
  | nil => rfl
  | cons c rest ih =>
    rw [List.map_cons]
    have hc : ¬(c = '\r') := fun hh => h (by rw [← hh]; exact List.mem_cons_self _ _)
    rw [if_neg hc, ih (fun hm => h (List.mem_cons_of_mem _ hm))]

theorem removeNul_eq_self {t : Text} (h : '\x00' ∉ t) : removeNul t = t := by
  unfold removeNul
  rw [List.filter_eq_self]
  intro a ha
  simp only [decide_eq_true_eq, ne_eq]
  intro hh
  exact h (hh ▸ ha)

theorem no_cr_replaceCr (t : Text) : '\r' ∉ replaceCr t := by
  intro h
  unfold replaceCr at h
  rcases List.mem_map.mp h with ⟨a, _, hfa⟩
  by_cases hr : a = '\r'
  · rw [if_pos hr] at hfa; exact absurd hfa (by decide)
  · rw [if_neg hr] at hfa; exact hr hfa

theorem bisectLoop_le (a : List Nat) (x : Nat) (fuel : Nat) :
    ∀ lo hi, lo ≤ hi → lo ≤ bisectLoop a x fuel lo hi ∧ bisectLoop a x fuel lo hi ≤ hi := by
  induction fuel with
  | zero =>
    intro lo hi h
    rw [bisectLoop]
    omega
  | succ fuel ih =>
    intro lo hi h
    rw [bisectLoop]
    by_cases hlt : lo < hi
    · rw [if_pos hlt]
      by_cases hle : a.getD ((lo + hi) / 2) 0 ≤ x
      · rw [if_pos hle]
        have := ih ((lo + hi) / 2 + 1) hi (by omega)
        omega
      · rw [if_neg hle]
        have := ih lo ((lo + hi) / 2) (by omega)
        omega
    · rw [if_neg hlt]
      omega

theorem bisectLoop_spec {a : List Nat} (hs : List.Pairwise (· ≤ ·) a) (x : Nat)
    (fuel : Nat) :
    ∀ lo hi, hi - lo ≤ fuel → hi ≤ a.length → lo ≤ hi →
    (∀ i, i < lo → a.getD i 0 ≤ x) →
    (∀ i, hi ≤ i → i < a.length → x < a.getD i 0) →
    (∀ i, i < bisectLoop a x fuel lo hi → a.getD i 0 ≤ x) ∧
      (∀ i, bisectLoop a x fuel lo hi ≤ i → i < a.length → x < a.getD i 0) := by
  have hmono : ∀ i j, i ≤ j → j < a.length → a.getD i 0 ≤ a.getD j 0 := by
    intro i j hij hj
    have hi : i < a.length := lt_of_le_of_lt (Nat.lt_succ_iff.mp (Nat.lt_succ_of_le hij)) hj
    rcases Nat.eq_or_lt_of_le hij with rfl | hlt
    · exact le_refl _
    · have := List.pairwise_iff_get.mp hs ⟨i, hi⟩ ⟨j, hj⟩ hlt
      rw [List.getD_eq_getElem _ _ hi, List.getD_eq_getElem _ _ hj]
      simpa using this
  induction fuel with
  | zero =>
    intro lo hi hfuel hhi hlohi hpre hpost
    have heq : lo = hi := by omega
    subst heq
    rw [bisectLoop]
    exact ⟨hpre, hpost⟩
  | succ fuel ih =>
    intro lo hi hfuel hhi hlohi hpre hpost
    rw [bisectLoop]
    by_cases hlt : lo < hi
    · rw [if_pos hlt]
      by_cases hle : a.getD ((lo + hi) / 2) 0 ≤ x
      · rw [if_pos hle]
        refine ih ((lo + hi) / 2 + 1) hi (by omega) hhi (by omega) ?_ hpost
        intro i hilt
        exact le_trans (hmono i ((lo + hi) / 2) (by omega) (by omega)) hle
      · rw [if_neg hle]
        refine ih lo ((lo + hi) / 2) (by omega) (by omega) (by omega) hpre ?_
        intro i hile hilen
        exact lt_of_lt_of_le (Nat.lt_of_not_le hle) (hmono ((lo + hi) / 2) i hile hilen)
    · rw [if_neg hlt]
      have heq : lo = hi := by omega
      subst heq
      exact ⟨hpre, hpost⟩

theorem countP_of_cut {p : Nat → Bool} {a : List Nat} {r : Nat}
    (hr : r ≤ a.length)
    (h : ∀ i, i < a.length → (p (a.getD i 0) = true ↔ i < r)) :
    a.countP p = r := by
  induction a generalizing r with
  | nil =>
    simp only [List.length_nil, Nat.le_zero] at hr
    subst hr
    simp
  | cons b t ih =>
    cases r with
    | zero =>
      have hb : p b = false := by
        have := h 0 (by simp)
        simp only [List.getD] at this
        simp only [Nat.not_lt_zero, iff_false] at this
        exact Bool.eq_false_iff.mpr this
      rw [List.countP_cons_of_neg _ _ (by rw [hb]; exact Bool.false_ne_true)]
      apply ih (Nat.zero_le _)
      intro i hi
      have := h (i + 1) (by simp only [List.length_cons]; omega)
      simpa using this
    | succ r =>
      have hb : p b = true := by
        have := h 0 (by simp)
        simp only [List.getD] at this
        exact this.mpr (Nat.succ_pos r)
      rw [List.countP_cons_of_pos _ _ hb]
      have hlen : r ≤ t.length := by simp only [List.length_cons] at hr; omega
      have harg : ∀ i, i < t.length → (p (t.getD i 0) = true ↔ i < r) := by
        intro i hi
        have := h (i + 1) (by simp only [List.length_cons]; omega)
        simpa using this
      have hrec := ih hlen harg
      omega

theorem bisect_right_eq_countP {a : List Nat} (hs : List.Pairwise (· ≤ ·) a)
    (x : Nat) : bisect_right a x = a.countP (fun b => b ≤ x) := by
  have hb := bisectLoop_le a x a.length 0 a.length (Nat.zero_le a.length)
  have hspec := bisectLoop_spec hs x a.length 0 a.length (by omega)
    (le_refl a.length) (Nat.zero_le _)
    (fun i hi => absurd hi (Nat.not_lt_zero i))
    (fun i hi hilen => absurd hilen (Nat.not_lt.mpr hi))
  unfold bisect_right
  symm
  apply countP_of_cut hb.2
  intro i hilen
  constructor
  · intro hp
    by_contra hge
    have := hspec.2 i (Nat.not_lt.mp hge) hilen
    simp only [decide_eq_true_eq] at hp
    omega
  · intro hlt
    simp only [decide_eq_true_eq]
    exact hspec.1 i hlt

theorem rfindIn_bounds {t : Text} {ch : Char} {s e b : Nat}
    (h : rfindIn t ch s e = some b) : s ≤ b ∧ b < e := by
  unfold rfindIn at h
  have hmem : b ∈ (List.range' s (e - s)).filter (fun i => decide (t[i]? = some ch)) := by
    obtain ⟨hne, hx⟩ := List.mem_getLast?_eq_getLast (Option.mem_def.mpr h)
    rw [hx]
    exact List.getLast_mem hne
  have hr := (List.mem_filter.mp hmem).1
  rw [List.mem_range'_1] at hr
  omega

theorem chunkEnd_spec {t : Text} {mc start : Nat} (hmc : 0 < mc)
    (hstart : start < t.length) :
    (start < chunkEnd t mc start ∧ chunkEnd t mc start ≤ t.length) ∧
      (chunkEnd t mc start < t.length →
        start + mc / 2 < chunkEnd t mc start ∨ chunkEnd t mc start = start + mc) := by
  have h1 : start < hardEnd t mc start := by
    unfold hardEnd
    exact lt_min hstart (by omega)
  have h2 : hardEnd t mc start ≤ t.length := min_le_left _ _
  have h3 : hardEnd t mc start = t.length ∨ hardEnd t mc start = start + mc :=
    min_choice _ _
  unfold chunkEnd
  split
  · split
    · rename_i hlt b heq
      have hbb : start ≤ b ∧ b < hardEnd t mc start := by
        revert heq
        cases hc : rfindIn t '\n' start (hardEnd t mc start) with
        | some b1 =>
          intro heq
          injection heq with heq
          exact heq ▸ rfindIn_bounds hc
        | none =>
          intro heq
          exact rfindIn_bounds heq
      split
      · rename_i hgt
        exact ⟨⟨by omega, by omega⟩, fun _ => Or.inl hgt⟩
      · rename_i hgt
        rcases h3 with h3 | h3 <;>
          exact ⟨⟨by omega, by omega⟩, fun _ => Or.inr (by omega)⟩
    · rename_i hlt heq
      rcases h3 with h3 | h3 <;>
        exact ⟨⟨by omega, by omega⟩, fun _ => Or.inr (by omega)⟩
  · rename_i hlt
    exact ⟨⟨by omega, by omega⟩, fun h => absurd h hlt⟩

theorem pySlice_length {t : Text} {s e : Nat} (hse : s ≤ e) (he : e ≤ t.length) :
    (pySlice t s e).length = e - s := by
  unfold pySlice
  rw [List.length_drop, List.length_take]
  omega

theorem iterChunksLoop_props (t : Text) (mc overlap : Nat) (hmc : 0 < mc)
    (hov : overlap ≤ mc / 2) :
    ∀ fuel start, start < t.length → t.length - start < fuel →
    ∃ chunks, iterChunksLoop t mc overlap fuel start = some chunks ∧
      (∀ p ∈ chunks, p.1 = pySlice t p.2 (p.2 + p.1.length)) ∧
      (∀ pos, start ≤ pos → pos < t.length →
        ∃ p ∈ chunks, p.2 ≤ pos ∧ pos < p.2 + p.1.length) := by
  intro fuel
  induction fuel with
  | zero =>
    intro start hstart hfuel
    omega
  | succ fuel ih =>
    intro start hstart hfuel
    rw [iterChunksLoop, if_pos hstart]
    obtain ⟨⟨hevlo, hevhi⟩, hprog⟩ := chunkEnd_spec hmc hstart
    set endv := chunkEnd t mc start with hendv
    have hchunklen : (pySlice t start endv).length = endv - start :=
      pySlice_length (by omega) hevhi
    by_cases hfin : endv = t.length
    · rw [if_pos hfin]
      refine ⟨[(pySlice t start endv, start)], rfl, ?_, ?_⟩
      · intro p hp
        rw [List.mem_singleton] at hp
        subst hp
        simp only
        rw [hchunklen]
        congr 1
        omega
      · intro pos hpos1 hpos2
        refine ⟨(pySlice t start endv, start), List.mem_singleton.mpr rfl, hpos1, ?_⟩
        simp only
        rw [hchunklen]
        omega
    · rw [if_neg hfin]
      have hevlt : endv < t.length := by omega
      have hnext : start < endv - overlap ∧ endv - overlap ≤ endv := by
        rcases hprog hevlt with h | h
        · constructor
          · omega
          · omega
        · constructor
          · have : mc / 2 + 1 ≤ mc := by omega
            omega
          · omega
      obtain ⟨hc, heq, hprop, hcov⟩ := ih (endv - overlap) (by omega) (by omega)
      refine ⟨(pySlice t start endv, start) :: hc, ?_, ?_, ?_⟩
      · rw [heq]; rfl
      · intro p hp
        rcases List.mem_cons.mp hp with hp | hp
        · subst hp
          simp only
          rw [hchunklen]
          congr 1
          omega
        · exact hprop p hp
      · intro pos hpos1 hpos2
        by_cases hin : pos < endv
        · refine ⟨(pySlice t start endv, start), List.mem_cons_self _ _, hpos1, ?_⟩
          simp only
          rw [hchunklen]
          omega
        · obtain ⟨p, hpmem, hp1, hp2⟩ := hcov pos (by omega) hpos2
          exact ⟨p, List.mem_cons_of_mem _ hpmem, hp1, hp2⟩

theorem pyRound2_zero : pyRound2 0 = 0 := by
  have := pyRound2_intCast 0
  simpa using this

theorem pyRound2_hundred : pyRound2 100 = 100 := by
  have := pyRound2_intCast 100
  simpa using this

theorem score_shape_bounds {mp pen : ℚ} (hpen : 0 ≤ pen) (hmp : 0 ≤ mp)
    (hfix : pyRound2 mp = mp) :
    0 ≤ pyRound2 (mp - min mp pen) ∧ pyRound2 (mp - min mp pen) ≤ mp := by
  have h1 : 0 ≤ mp - min mp pen := by
    have := min_le_left mp pen
    linarith
  have h2 : mp - min mp pen ≤ mp := by
    have : 0 ≤ min mp pen := le_min hmp hpen
    linarith
  constructor
  · have := pyRound2_mono h1
    rwa [pyRound2_zero] at this
  · have := pyRound2_mono h2
    rwa [hfix] at this

theorem runChecksLoop_cons {ctx : CheckContext} {strict : Bool} {c : CheckSpec}
    {rest : List CheckSpec} {rs : List CheckResult} {aw ts : ℚ}
    (h : runChecksLoop ctx strict (c :: rest) = Except.ok (rs, aw, ts)) :
    ∃ result rs2 aw2 ts2, c.func ctx c.weight = Except.ok result ∧
      runChecksLoop ctx strict rest = Except.ok (rs2, aw2, ts2) ∧
      rs = result :: rs2 ∧
      aw = (if result.status = "ok" ∨ strict then c.weight else 0) + aw2 ∧
      ts = (if result.status = "ok" then result.score else 0) + ts2 := by
  rw [runChecksLoop] at h
  cases hres : c.func ctx c.weight with
  | error e => rw [hres] at h; exact absurd h (by simp)
  | ok result =>
    rw [hres] at h
    cases hrest : runChecksLoop ctx strict rest with
    | error e => rw [hrest] at h; exact absurd h (by simp)
    | ok triple =>
      obtain ⟨rs2, aw2, ts2⟩ := triple
      rw [hrest] at h
      simp only [] at h
      by_cases hst : result.status = "ok"
      · rw [if_pos hst] at h
        injection h with h
        injection h with h1 h
        injection h with h2 h3
        refine ⟨result, rs2, aw2, ts2, rfl, rfl, h1.symm, ?_, ?_⟩
        · rw [if_pos (Or.inl hst)]; exact h2.symm
        · rw [if_pos hst]; exact h3.symm
      · rw [if_neg hst] at h
        by_cases hstr : strict = true
        · rw [if_pos hstr] at h
          injection h with h
          injection h with h1 h
          injection h with h2 h3
          refine ⟨result, rs2, aw2, ts2, rfl, rfl, h1.symm, ?_, ?_⟩
          · rw [if_pos (Or.inr hstr)]; exact h2.symm
          · rw [if_neg hst, zero_add]; exact h3.symm
        · rw [if_neg hstr] at h
          injection h with h
          injection h with h1 h
          injection h with h2 h3
          refine ⟨result, rs2, aw2, ts2, rfl, rfl, h1.symm, ?_, ?_⟩
          · rw [if_neg ?hc, zero_add]
            · exact h2.symm
            · intro hcon
              rcases hcon with hcon | hcon
              · exact hst hcon
              · exact hstr hcon
          · rw [if_neg hst, zero_add]; exact h3.symm

theorem runChecksLoop_forall2 {ctx : CheckContext} {strict : Bool} :
    ∀ {checks : List CheckSpec} {rs : List CheckResult} {aw ts : ℚ},
    runChecksLoop ctx strict checks = Except.ok (rs, aw, ts) →
    List.Forall₂ (fun c r => c.func ctx c.weight = Except.ok r) checks rs := by
  intro checks
  induction checks with
  | nil =>
    intro rs aw ts h
    rw [runChecksLoop] at h
    injection h with h
    have h1 : rs = [] := (congrArg Prod.fst h).symm
    subst h1
    exact List.Forall₂.nil
  | cons c rest ih =>
    intro rs aw ts h
    obtain ⟨result, rs2, aw2, ts2, hres, hrest, hrs, _, _⟩ := runChecksLoop_cons h
    subst hrs
    exact List.Forall₂.cons hres (ih hrest)

theorem runChecksLoop_sums {ctx : CheckContext} {strict : Bool} :
    ∀ {checks : List CheckSpec} {rs : List CheckResult} {aw ts : ℚ},
    runChecksLoop ctx strict checks = Except.ok (rs, aw, ts) →
    aw = contribWeight strict (checks.zip rs) ∧ ts = okScoreSum rs := by
  intro checks
  induction checks with
  | nil =>
    intro rs aw ts h
    rw [runChecksLoop] at h
    injection h with h
    have h1 : rs = [] := (congrArg Prod.fst h).symm
    have h2 : aw = 0 := (congrArg (fun p => p.2.1) h).symm
    have h3 : ts = 0 := (congrArg (fun p => p.2.2) h).symm
    subst h1
    exact ⟨by rw [h2]; rfl, by rw [h3]; rfl⟩
  | cons c rest ih =>
    intro rs aw ts h
    obtain ⟨result, rs2, aw2, ts2, _, hrest, hrs, haw, hts⟩ := runChecksLoop_cons h
    obtain ⟨ih1, ih2⟩ := ih hrest
    subst hrs
    constructor
    · rw [haw, ih1]
      rfl
    · rw [hts, ih2]
      rfl

theorem runChecksLoop_ok_of_pure {ctx : CheckContext} {strict : Bool} :
    ∀ {checks : List CheckSpec},
    (∀ c ∈ checks, ∃ r, c.func ctx c.weight = Except.ok r) →
    ∃ v, runChecksLoop ctx strict checks = Except.ok v := by
  intro checks
  induction checks with
  | nil => intro _; exact ⟨([], 0, 0), rfl⟩
  | cons c rest ih =>
    intro hp
    obtain ⟨r, hr⟩ := hp c (List.mem_cons_self _ _)
    obtain ⟨⟨rs, aw, ts⟩, hv⟩ := ih (fun d hd => hp d (List.mem_cons_of_mem _ hd))
    refine ⟨?_, ?_⟩
    case _ =>
      exact if r.status = "ok" then (r :: rs, c.weight + aw, r.score + ts)
        else if strict then (r :: rs, c.weight + aw, ts) else (r :: rs, aw, ts)
    rw [runChecksLoop, hr, hv]
    dsimp only
    by_cases hst : r.status = "ok"
    · rw [if_pos hst, if_pos hst]
    · rw [if_neg hst, if_neg hst]
      by_cases hstr : strict = true
      · rw [if_pos hstr, if_pos hstr]
      · rw [if_neg hstr, if_neg hstr]

theorem aggregate_report_eq {file_path : String} {text : Text} {language : String}
    {options : AuditOptions} {enabled : List CheckSpec} {rs : List CheckResult}
    {aw ts : ℚ}
    (hrun : runChecksLoop (build_context text language options) options.strict
      enabled = Except.ok (rs, aw, ts)) :
    aggregate_report file_path text language options enabled = Except.ok
      { file_path := file_path, language := language,
        total_score := if 0 < aw then pyRound2 (100 * ts / aw) else 0.0,
        coverage := pyRound2 (if (enabled.map (fun c => c.weight)).sum ≠ 0 then
          100.0 * aw / (enabled.map (fun c => c.weight)).sum else 0.0),
        check_results := if options.max_issues ≠ 0 ∧ 0 < options.max_issues then
          truncateLoop options.max_issues rs else rs } := by
  unfold aggregate_report
  dsimp only
  rw [hrun]

theorem scenario_run :
    runChecksLoop (build_context scenarioText "en-US" defaultOptions)
      defaultOptions.strict scenarioChecks = Except.ok
        ([check_punctuation_style (build_context scenarioText "en-US" defaultOptions) 10.0,
          check_whitespace_formatting (build_context scenarioText "en-US" defaultOptions) 5.0],
         15, 137/10) := by
  have hp : (check_punctuation_style (build_context scenarioText "en-US" defaultOptions)
      10.0).score = 9 := by with_unfolding_all decide
  have hw : (check_whitespace_formatting (build_context scenarioText "en-US" defaultOptions)
      5.0).score = 47/10 := by with_unfolding_all decide
  have hsc : scenarioChecks =
      [⟨"punctuation", "Punctuation and style", 10.0, pureCheck check_punctuation_style⟩,
       ⟨"whitespace", "Whitespace and formatting", 5.0, pureCheck check_whitespace_formatting⟩] := rfl
  rw [hsc, runChecksLoop]
  dsimp only [pureCheck]
  rw [runChecksLoop]
  dsimp only [pureCheck]
  rw [runChecksLoop]
  rw [show (check_punctuation_style (build_context scenarioText "en-US" defaultOptions)
    10.0).status = "ok" from rfl]
  rw [show (check_whitespace_formatting (build_context scenarioText "en-US" defaultOptions)
    5.0).status = "ok" from rfl]
  simp only [if_true]
  rw [hp, hw]
  norm_num

theorem scenario_run_punct :
    runChecksLoop (build_context scenarioText "en-US" defaultOptions)
      defaultOptions.strict scenarioChecksNoWs = Except.ok
        ([check_punctuation_style (build_context scenarioText "en-US" defaultOptions) 10.0],
         10, 9) := by
  have hp : (check_punctuation_style (build_context scenarioText "en-US" defaultOptions)
      10.0).score = 9 := by with_unfolding_all decide
  have hsc : scenarioChecksNoWs =
      [⟨"punctuation", "Punctuation and style", 10.0, pureCheck check_punctuation_style⟩] := rfl
  rw [hsc, runChecksLoop]
  dsimp only [pureCheck]
  rw [runChecksLoop]
  rw [show (check_punctuation_style (build_context scenarioText "en-US" defaultOptions)
    10.0).status = "ok" from rfl]
  simp only [if_true]
  rw [hp]
  norm_num

theorem scenario_weight_sum :
    (scenarioChecks.map (fun c => c.weight)).sum = 15 := by
  with_unfolding_all decide

theorem scenario_weight_sum_punct :
    (scenarioChecksNoWs.map (fun c => c.weight)).sum = 10 := by
  with_unfolding_all decide

theorem runChecksLoop_error {ctx : CheckContext} {strict : Bool} :
    ∀ {pre : List CheckSpec} {bad : CheckSpec} {rest : List CheckSpec} {e : String},
    (∀ c ∈ pre, ∃ r, c.func ctx c.weight = Except.ok r) →
    bad.func ctx bad.weight = Except.error e →
    runChecksLoop ctx strict (pre ++ bad :: rest) = Except.error e := by
  intro pre
  induction pre with
  | nil =>
    intro bad rest e _ hbad
    rw [List.nil_append, runChecksLoop, hbad]
  | cons c cs ih =>
    intro bad rest e hpre hbad
    rw [List.cons_append, runChecksLoop]
    obtain ⟨r, hr⟩ := hpre c (List.mem_cons_self _ _)
    rw [hr, ih (fun d hd => hpre d (List.mem_cons_of_mem _ hd)) hbad]

/-- C1 (amended): the coverage is pyRound2 of 100 times the contributing
weight divided by the total weight of the ENABLED checks (zero if that
total is zero), not of all registered checks; on the scenario text with
punctuation and whitespace enabled the coverage is therefore 100, and so it
stays after also disabling whitespace, refuting both the claimed value 15
and the claimed strict decrease. -/
theorem C1_coverage (fp : String) (text : Text) (lang : String)
    (options : AuditOptions) (enabled : List CheckSpec) (rs : List CheckResult)
    (aw ts : ℚ) (rep : AuditReport)
    (hrun : runChecksLoop (build_context text lang options) options.strict
      enabled = Except.ok (rs, aw, ts))
    (hrep : aggregate_report fp text lang options enabled = Except.ok rep) :
    rep.coverage = pyRound2 (if (enabled.map (fun c => c.weight)).sum ≠ 0 then
      (100.0 : ℚ) * contribWeight options.strict (enabled.zip rs) /
        (enabled.map (fun c => c.weight)).sum
      else 0.0) := by
  have hsum := (runChecksLoop_sums hrun).1
  rw [aggregate_report_eq hrun] at hrep
  injection hrep with h
  rw [← h]
  dsimp only
  rw [hsum]

/-- C1 (counterexample): on the scenario text with punctuation and
whitespace enabled the report's coverage is 100, not 15, and it is still
100 after disabling whitespace, so the disabling did not strictly decrease
it. -/
theorem C1_coverage_counterexample :
    ∃ rep rep2,
      aggregate_report "doc.txt" scenarioText "en-US" defaultOptions
        scenarioChecks = Except.ok rep ∧
      rep.coverage = 100 ∧ (100 : ℚ) ≠ 15 ∧
      aggregate_report "doc.txt" scenarioText "en-US" defaultOptions
        scenarioChecksNoWs = Except.ok rep2 ∧
      rep2.coverage = 100 := by
  refine ⟨_, _, aggregate_report_eq scenario_run, ?_, by norm_num,
    aggregate_report_eq scenario_run_punct, ?_⟩
  · show pyRound2 (if (scenarioChecks.map (fun c => c.weight)).sum ≠ 0 then
      (100.0 : ℚ) * 15 / (scenarioChecks.map (fun c => c.weight)).sum else 0.0) = 100
    rw [scenario_weight_sum, if_pos (by norm_num),
      show (100.0 : ℚ) * 15 / 15 = 100 by norm_num, pyRound2_hundred]
  · show pyRound2 (if (scenarioChecksNoWs.map (fun c => c.weight)).sum ≠ 0 then
      (100.0 : ℚ) * 10 / (scenarioChecksNoWs.map (fun c => c.weight)).sum else 0.0) = 100
    rw [scenario_weight_sum_punct, if_pos (by norm_num),
      show (100.0 : ℚ) * 10 / 10 = 100 by norm_num, pyRound2_hundred]

/-- C1 (witness): the amended coverage formula instantiated on the
scenario run with punctuation and whitespace enabled. -/
theorem C1_coverage_witness :
    ∃ rs rep aw ts,
      runChecksLoop (build_context scenarioText "en-US" defaultOptions)
        defaultOptions.strict scenarioChecks = Except.ok (rs, aw, ts) ∧
      aggregate_report "doc.txt" scenarioText "en-US" defaultOptions
        scenarioChecks = Except.ok rep ∧
      rep.coverage = pyRound2 (if (scenarioChecks.map (fun c => c.weight)).sum ≠ 0 then
        (100.0 : ℚ) * contribWeight defaultOptions.strict (scenarioChecks.zip rs) /
          (scenarioChecks.map (fun c => c.weight)).sum
        else 0.0) := by
  refine ⟨_, _, 15, 137/10, scenario_run, aggregate_report_eq scenario_run, ?_⟩
  exact C1_coverage "doc.txt" scenarioText "en-US" defaultOptions scenarioChecks
    _ 15 (137/10) _ scenario_run (aggregate_report_eq scenario_run)

/-- C2 (amended): aggregate_report wraps no handler around the check
procedures, so when every check before a raising one succeeds, the raising
check's exception propagates out of aggregate_report unchanged and no
report is produced. -/
theorem C2_exception_propagates (fp : String) (text : Text) (lang : String)
    (options : AuditOptions) (pre : List CheckSpec) (bad : CheckSpec)
    (rest : List CheckSpec) (e : String)
    (hpre : ∀ c ∈ pre, ∃ r,
      c.func (build_context text lang options) c.weight = Except.ok r)
    (hbad : bad.func (build_context text lang options) bad.weight =
      Except.error e) :
    aggregate_report fp text lang options (pre ++ bad :: rest) =
      Except.error e := by
  unfold aggregate_report
  dsimp only
  rw [runChecksLoop_error hpre hbad]

/-- C2 (counterexample): a raising check procedure makes aggregate_report
itself return the exception instead of an error-status CheckResult. -/
theorem C2_exception_counterexample :
    raisingSpec.func (build_context [] "en" defaultOptions) raisingSpec.weight =
      Except.error "boom" ∧
    aggregate_report "f" [] "en" defaultOptions [raisingSpec] =
      Except.error "boom" := ⟨rfl, rfl⟩

/-- C2 (witness): the propagation statement at the scenario checks followed
by a raising check. -/
theorem C2_exception_witness :
    (∀ c ∈ scenarioChecks, ∃ r,
      c.func (build_context scenarioText "en-US" defaultOptions) c.weight =
        Except.ok r) ∧
    raisingSpec.func (build_context scenarioText "en-US" defaultOptions)
      raisingSpec.weight = Except.error "boom" ∧
    aggregate_report "doc.txt" scenarioText "en-US" defaultOptions
      (scenarioChecks ++ raisingSpec :: []) = Except.error "boom" := by
  have hpre : ∀ c ∈ scenarioChecks, ∃ r,
      c.func (build_context scenarioText "en-US" defaultOptions) c.weight =
        Except.ok r := by
    intro c hc
    have hsc : scenarioChecks =
        [⟨"punctuation", "Punctuation and style", 10.0, pureCheck check_punctuation_style⟩,
         ⟨"whitespace", "Whitespace and formatting", 5.0, pureCheck check_whitespace_formatting⟩] := rfl
    rw [hsc] at hc
    rcases List.mem_cons.mp hc with hc | hc
    · subst hc
      exact ⟨_, rfl⟩
    rcases List.mem_cons.mp hc with hc | hc
    · subst hc
      exact ⟨_, rfl⟩
    exact absurd hc (List.not_mem_nil c)
  exact ⟨hpre, rfl,
    C2_exception_propagates "doc.txt" scenarioText "en-US" defaultOptions
      scenarioChecks raisingSpec [] "boom" hpre rfl⟩

/-- C3 (amended): the total score is round(100 times the ok-status score
sum divided by the contributing weight, 2) when some weight contributes and
0 otherwise - the claimed formula omits the final two-decimal rounding; the
contributing weight counts ok-status checks and, under strict mode, also
the other statuses, as claimed. -/
theorem C3_total_score (fp : String) (text : Text) (lang : String)
    (options : AuditOptions) (enabled : List CheckSpec) (rs : List CheckResult)
    (aw ts : ℚ) (rep : AuditReport)
    (hrun : runChecksLoop (build_context text lang options) options.strict
      enabled = Except.ok (rs, aw, ts))
    (hrep : aggregate_report fp text lang options enabled = Except.ok rep) :
    rep.total_score =
      if 0 < contribWeight options.strict (enabled.zip rs) then
        pyRound2 (100 * okScoreSum rs /
          contribWeight options.strict (enabled.zip rs))
      else 0.0 := by
  obtain ⟨hsum1, hsum2⟩ := runChecksLoop_sums hrun
  rw [aggregate_report_eq hrun] at hrep
  injection hrep with h
  rw [← h]
  dsimp only
  rw [hsum1, hsum2]

/-- C3 (counterexample): on the scenario run the contributing weight is 15
and the ok-score sum is 13.7, and the reported total score is the rounded
91.33, which differs from the unrounded value 100 x 13.7 / 15 claimed by
the specification formula. -/
theorem C3_total_score_counterexample :
    ∃ rep,
      runChecksLoop (build_context scenarioText "en-US" defaultOptions)
        defaultOptions.strict scenarioChecks = Except.ok
          ([check_punctuation_style (build_context scenarioText "en-US" defaultOptions) 10.0,
            check_whitespace_formatting (build_context scenarioText "en-US" defaultOptions) 5.0],
           15, 137/10) ∧
      aggregate_report "doc.txt" scenarioText "en-US" defaultOptions
        scenarioChecks = Except.ok rep ∧
      rep.total_score = 9133/100 ∧
      (9133/100 : ℚ) ≠ 100 * (137/10) / 15 := by
  refine ⟨_, scenario_run, aggregate_report_eq scenario_run, ?_, by norm_num⟩
  show (if (0 : ℚ) < 15 then pyRound2 (100 * (137/10) / 15) else 0.0) = 9133/100
  rw [if_pos (by norm_num)]
  rw [show (100 : ℚ) * (137/10) / 15 = 274/3 by norm_num]
  unfold pyRound2 roundHalfEven
  norm_num

/-- C3 (witness): the amended total-score formula instantiated on the
scenario run. -/
theorem C3_total_score_witness :
    ∃ rs rep aw ts,
      runChecksLoop (build_context scenarioText "en-US" defaultOptions)
        defaultOptions.strict scenarioChecks = Except.ok (rs, aw, ts) ∧
      aggregate_report "doc.txt" scenarioText "en-US" defaultOptions
        scenarioChecks = Except.ok rep ∧
      rep.total_score =
        (if 0 < contribWeight defaultOptions.strict (scenarioChecks.zip rs) then
          pyRound2 (100 * okScoreSum rs /
            contribWeight defaultOptions.strict (scenarioChecks.zip rs))
        else 0.0) := by
  refine ⟨_, _, 15, 137/10, scenario_run, aggregate_report_eq scenario_run, ?_⟩
  exact C3_total_score "doc.txt" scenarioText "en-US" defaultOptions scenarioChecks
    _ 15 (137/10) _ scenario_run (aggregate_report_eq scenario_run)

theorem pyRound2_five : pyRound2 (5.0 : ℚ) = 5.0 := by
  rw [show (5.0 : ℚ) = ((5 : ℤ) : ℚ) by norm_num]
  exact pyRound2_intCast 5

theorem pyRound2_ten : pyRound2 (10.0 : ℚ) = 10.0 := by
  rw [show (10.0 : ℚ) = ((10 : ℤ) : ℚ) by norm_num]
  exact pyRound2_intCast 10

theorem pyRound2_thirtyfive : pyRound2 (35.0 : ℚ) = 35.0 := by
  rw [show (35.0 : ℚ) = ((35 : ℤ) : ℚ) by norm_num]
  exact pyRound2_intCast 35

theorem check_language_tool_bounds (ctx : CheckContext) (mp : ℚ) (hmp : 0 ≤ mp) :
    0 ≤ (check_language_tool ctx mp).score ∧
      (check_language_tool ctx mp).score ≤ mp ∧
      (check_language_tool ctx mp).max_score = mp :=
  ⟨le_rfl, hmp, rfl⟩

theorem check_readability_bounds (ctx : CheckContext) (mp : ℚ) (hmp : 0 ≤ mp)
    (hfix : pyRound2 mp = mp) :
    0 ≤ (check_readability ctx mp).score ∧
      (check_readability ctx mp).score ≤ mp ∧
      (check_readability ctx mp).max_score = mp := by
  unfold check_readability
  dsimp only
  exact ⟨(score_shape_bounds (by positivity) hmp hfix).1,
    (score_shape_bounds (by positivity) hmp hfix).2, rfl⟩

theorem check_whitespace_formatting_bounds (ctx : CheckContext) (mp : ℚ)
    (hmp : 0 ≤ mp) (hfix : pyRound2 mp = mp) :
    0 ≤ (check_whitespace_formatting ctx mp).score ∧
      (check_whitespace_formatting ctx mp).score ≤ mp ∧
      (check_whitespace_formatting ctx mp).max_score = mp := by
  unfold check_whitespace_formatting
  dsimp only
  exact ⟨(score_shape_bounds (by positivity) hmp hfix).1,
    (score_shape_bounds (by positivity) hmp hfix).2, rfl⟩

theorem check_headings_capitalization_bounds (ctx : CheckContext) (mp : ℚ)
    (hmp : 0 ≤ mp) (hfix : pyRound2 mp = mp) :
    0 ≤ (check_headings_capitalization ctx mp).score ∧
      (check_headings_capitalization ctx mp).score ≤ mp ∧
      (check_headings_capitalization ctx mp).max_score = mp := by
  unfold check_headings_capitalization
  dsimp only
  exact ⟨(score_shape_bounds (by positivity) hmp hfix).1,
    (score_shape_bounds (by positivity) hmp hfix).2, rfl⟩

theorem check_passive_voice_bounds (ctx : CheckContext) (mp : ℚ)
    (hmp : 0 ≤ mp) (hfix : pyRound2 mp = mp) :
    0 ≤ (check_passive_voice ctx mp).score ∧
      (check_passive_voice ctx mp).score ≤ mp ∧
      (check_passive_voice ctx mp).max_score = mp := by
  unfold check_passive_voice
  dsimp only
  exact ⟨(score_shape_bounds (by positivity) hmp hfix).1,
    (score_shape_bounds (by positivity) hmp hfix).2, rfl⟩

theorem check_parallel_bullets_bounds (ctx : CheckContext) (mp : ℚ)
    (hmp : 0 ≤ mp) (hfix : pyRound2 mp = mp) :
    0 ≤ (check_parallel_bullets ctx mp).score ∧
      (check_parallel_bullets ctx mp).score ≤ mp ∧
      (check_parallel_bullets ctx mp).max_score = mp := by
  unfold check_parallel_bullets
  dsimp only
  exact ⟨(score_shape_bounds (by positivity) hmp hfix).1,
    (score_shape_bounds (by positivity) hmp hfix).2, rfl⟩

theorem check_acronym_definitions_bounds (ctx : CheckContext) (mp : ℚ)
    (hmp : 0 ≤ mp) (hfix : pyRound2 mp = mp) :
    0 ≤ (check_acronym_definitions ctx mp).score ∧
      (check_acronym_definitions ctx mp).score ≤ mp ∧
      (check_acronym_definitions ctx mp).max_score = mp := by
  unfold check_acronym_definitions
  dsimp only
  exact ⟨(score_shape_bounds (by positivity) hmp hfix).1,
    (score_shape_bounds (by positivity) hmp hfix).2, rfl⟩

theorem check_links_formatting_bounds (ctx : CheckContext) (mp : ℚ)
    (hmp : 0 ≤ mp) (hfix : pyRound2 mp = mp) :
    0 ≤ (check_links_formatting ctx mp).score ∧
      (check_links_formatting ctx mp).score ≤ mp ∧
      (check_links_formatting ctx mp).max_score = mp := by
  unfold check_links_formatting
  dsimp only
  split <;> (dsimp only; exact ⟨(score_shape_bounds (by norm_num) hmp hfix).1,
    (score_shape_bounds (by norm_num) hmp hfix).2, rfl⟩)

theorem check_percentage_consistency_bounds (ctx : CheckContext) (mp : ℚ)
    (hmp : 0 ≤ mp) (hfix : pyRound2 mp = mp) :
    0 ≤ (check_percentage_consistency ctx mp).score ∧
      (check_percentage_consistency ctx mp).score ≤ mp ∧
      (check_percentage_consistency ctx mp).max_score = mp := by
  unfold check_percentage_consistency
  dsimp only
  split <;> split <;> dsimp only <;>
    exact ⟨(score_shape_bounds (by norm_num) hmp hfix).1,
      (score_shape_bounds (by norm_num) hmp hfix).2, rfl⟩

theorem check_punctuation_style_bounds (ctx : CheckContext) (mp : ℚ)
    (hmp : 0 ≤ mp) (hfix : pyRound2 mp = mp) :
    0 ≤ (check_punctuation_style ctx mp).score ∧
      (check_punctuation_style ctx mp).score ≤ mp ∧
      (check_punctuation_style ctx mp).max_score = mp := by
  unfold check_punctuation_style
  dsimp only
  split <;> split <;> split <;> split <;> dsimp only <;>
    exact ⟨(score_shape_bounds (by norm_num) hmp hfix).1,
      (score_shape_bounds (by norm_num) hmp hfix).2, rfl⟩

theorem CHECKS_bounds :
    ∀ spec ∈ CHECKS, ∀ (ctx : CheckContext) (r : CheckResult),
      spec.func ctx spec.weight = Except.ok r →
      0 ≤ r.score ∧ r.score ≤ r.max_score ∧ r.max_score = spec.weight := by
  intro spec hspec
  simp only [CHECKS, List.mem_cons, List.not_mem_nil, or_false] at hspec
  rcases hspec with h | h | h | h | h | h | h | h | h | h <;> subst h <;>
    intro ctx r hr <;> dsimp only [pureCheck] at hr <;> injection hr with h2 <;>
    rw [← h2]
  · obtain ⟨b1, b2, b3⟩ := check_language_tool_bounds ctx 35.0 (by norm_num)
    exact ⟨b1, by rw [b3]; exact b2, b3⟩
  · obtain ⟨b1, b2, b3⟩ := check_readability_bounds ctx 10.0 (by norm_num) pyRound2_ten
    exact ⟨b1, by rw [b3]; exact b2, b3⟩
  · obtain ⟨b1, b2, b3⟩ := check_punctuation_style_bounds ctx 10.0 (by norm_num) pyRound2_ten
    exact ⟨b1, by rw [b3]; exact b2, b3⟩
  · obtain ⟨b1, b2, b3⟩ := check_whitespace_formatting_bounds ctx 5.0 (by norm_num) pyRound2_five
    exact ⟨b1, by rw [b3]; exact b2, b3⟩
  · obtain ⟨b1, b2, b3⟩ := check_percentage_consistency_bounds ctx 5.0 (by norm_num) pyRound2_five
    exact ⟨b1, by rw [b3]; exact b2, b3⟩
  · obtain ⟨b1, b2, b3⟩ := check_headings_capitalization_bounds ctx 5.0 (by norm_num) pyRound2_five
    exact ⟨b1, by rw [b3]; exact b2, b3⟩
  · obtain ⟨b1, b2, b3⟩ := check_passive_voice_bounds ctx 5.0 (by norm_num) pyRound2_five
    exact ⟨b1, by rw [b3]; exact b2, b3⟩
  · obtain ⟨b1, b2, b3⟩ := check_parallel_bullets_bounds ctx 10.0 (by norm_num) pyRound2_ten
    exact ⟨b1, by rw [b3]; exact b2, b3⟩
  · obtain ⟨b1, b2, b3⟩ := check_links_formatting_bounds ctx 5.0 (by norm_num) pyRound2_five
    exact ⟨b1, by rw [b3]; exact b2, b3⟩
  · obtain ⟨b1, b2, b3⟩ := check_acronym_definitions_bounds ctx 10.0 (by norm_num) pyRound2_ten
    exact ⟨b1, by rw [b3]; exact b2, b3⟩

theorem sums_bounded {ctx : CheckContext} {strict : Bool} :
    ∀ {checks : List CheckSpec} {rs : List CheckResult},
    List.Forall₂ (fun c r => c.func ctx c.weight = Except.ok r) checks rs →
    (∀ c ∈ checks, c ∈ CHECKS) →
    0 ≤ okScoreSum rs ∧
      okScoreSum rs ≤ contribWeight strict (checks.zip rs) ∧
      contribWeight strict (checks.zip rs) ≤ (checks.map (fun c => c.weight)).sum := by
  intro checks rs hf2
  induction hf2 with
  | nil =>
    intro _
    exact ⟨le_rfl, le_rfl, le_rfl⟩
  | cons hcr hrest ih =>
    rename_i c r cs rs2
    intro hmem
    obtain ⟨iha, ihb, ihc⟩ := ih (fun d hd => hmem d (List.mem_cons_of_mem _ hd))
    obtain ⟨hs0, hs1, hsm⟩ := CHECKS_bounds c (hmem c (List.mem_cons_self _ _)) _ r hcr
    have hsw : r.score ≤ c.weight := by rw [← hsm]; exact hs1
    have hw0 : 0 ≤ c.weight := le_trans hs0 hsw
    have hzip : (c :: cs).zip (r :: rs2) = (c, r) :: cs.zip rs2 := rfl
    rw [hzip, okScoreSum, contribWeight, List.map_cons, List.sum_cons]
    refine ⟨?_, ?_, ?_⟩
    · by_cases hok : r.status = "ok"
      · rw [if_pos hok]
        linarith
      · rw [if_neg hok]
        linarith
    · by_cases hok : r.status = "ok"
      · rw [if_pos hok, if_pos (Or.inl hok)]
        linarith
      · rw [if_neg hok]
        by_cases hstr : strict = true
        · rw [if_pos (Or.inr hstr)]
          linarith
        · rw [if_neg (by tauto)]
          linarith
    · by_cases hc2 : r.status = "ok" ∨ strict = true
      · rw [if_pos hc2]
        linarith
      · rw [if_neg hc2]
        linarith

theorem aggregate_ok_run {fp : String} {text : Text} {lang : String}
    {options : AuditOptions} {enabled : List CheckSpec} {rep : AuditReport}
    (hrep : aggregate_report fp text lang options enabled = Except.ok rep) :
    ∃ rs aw ts, runChecksLoop (build_context text lang options) options.strict
      enabled = Except.ok (rs, aw, ts) := by
  unfold aggregate_report at hrep
  dsimp only at hrep
  cases hrun : runChecksLoop (build_context text lang options) options.strict enabled with
  | error e =>
    rw [hrun] at hrep
    exact Except.noConfusion hrep
  | ok v =>
    exact ⟨v.1, v.2.1, v.2.2, rfl⟩

theorem aggregate_bounds {fp : String} {text : Text} {lang : String}
    {options : AuditOptions} {enabled : List CheckSpec} {rep : AuditReport}
    (hmem : ∀ c ∈ enabled, c ∈ CHECKS)
    (hrep : aggregate_report fp text lang options enabled = Except.ok rep) :
    0 ≤ rep.total_score ∧ rep.total_score ≤ 100 ∧
      0 ≤ rep.coverage ∧ rep.coverage ≤ 100 := by
  obtain ⟨rs, aw, ts, hrun⟩ := aggregate_ok_run hrep
  obtain ⟨hsum1, hsum2⟩ := runChecksLoop_sums hrun
  have hf2 := runChecksLoop_forall2 hrun
  obtain ⟨hb0, hb1, hb2⟩ := sums_bounded hf2 hmem
  have hts0 : 0 ≤ ts := by rw [hsum2]; exact hb0
  have htsaw : ts ≤ aw := by rw [hsum1, hsum2]; exact hb1
  have hawtot : aw ≤ (enabled.map (fun c => c.weight)).sum := by
    rw [hsum1]
    exact hb2
  have haw0 : 0 ≤ aw := le_trans hts0 htsaw
  rw [aggregate_report_eq hrun] at hrep
  injection hrep with h
  rw [← h]
  dsimp only
  refine ⟨?_, ?_, ?_, ?_⟩
  · by_cases haw : 0 < aw
    · rw [if_pos haw]
      exact pyRound2_nonneg (by positivity)
    · rw [if_neg haw]
      norm_num
  · by_cases haw : 0 < aw
    · rw [if_pos haw]
      have hle : 100 * ts / aw ≤ ((100 : ℤ) : ℚ) := by
        rw [div_le_iff haw]
        push_cast
        nlinarith
      have := pyRound2_le_intCast hle
      exact le_trans this (by norm_num)
    · rw [if_neg haw]
      norm_num
  · by_cases ht : (enabled.map (fun c => c.weight)).sum ≠ 0
    · rw [if_pos ht]
      have htot0 : 0 ≤ (enabled.map (fun c => c.weight)).sum := le_trans haw0 hawtot
      have htpos : 0 < (enabled.map (fun c => c.weight)).sum :=
        lt_of_le_of_ne htot0 (Ne.symm ht)
      exact pyRound2_nonneg (by positivity)
    · rw [if_neg ht]
      rw [show (0.0 : ℚ) = 0 by norm_num, pyRound2_zero]
  · by_cases ht : (enabled.map (fun c => c.weight)).sum ≠ 0
    · rw [if_pos ht]
      have htot0 : 0 ≤ (enabled.map (fun c => c.weight)).sum := le_trans haw0 hawtot
      have htpos : 0 < (enabled.map (fun c => c.weight)).sum :=
        lt_of_le_of_ne htot0 (Ne.symm ht)
      have hle : (100.0 : ℚ) * aw / (enabled.map (fun c => c.weight)).sum ≤
          ((100 : ℤ) : ℚ) := by
        rw [div_le_iff htpos]
        push_cast
        nlinarith
      have := pyRound2_le_intCast hle
      exact le_trans this (by norm_num)
    · rw [if_neg ht]
      rw [show (0.0 : ℚ) = 0 by norm_num, pyRound2_zero]
      norm_num

/-- C4: every registered check's successful result has a score within
zero and its max score (which equals the check's weight), and any report
the aggregator produces over checks drawn from the registry has total
score and coverage within zero and one hundred. -/
theorem C4_score_bounds :
    (∀ spec ∈ CHECKS, ∀ (ctx : CheckContext) (r : CheckResult),
      spec.func ctx spec.weight = Except.ok r →
      0 ≤ r.score ∧ r.score ≤ r.max_score) ∧
    (∀ (fp : String) (text : Text) (lang : String) (options : AuditOptions)
      (enabled : List CheckSpec) (rep : AuditReport),
      (∀ c ∈ enabled, c ∈ CHECKS) →
      aggregate_report fp text lang options enabled = Except.ok rep →
      0 ≤ rep.total_score ∧ rep.total_score ≤ 100 ∧
        0 ≤ rep.coverage ∧ rep.coverage ≤ 100) := by
  constructor
  · intro spec hs ctx r hr
    obtain ⟨b1, b2, _⟩ := CHECKS_bounds spec hs ctx r hr
    exact ⟨b1, b2⟩
  · intro fp text lang options enabled rep hmem hrep
    exact aggregate_bounds hmem hrep

/-- C4 (witness): the bounds at the readability check on the empty text and
at the aggregate report of the scenario run. -/
theorem C4_score_bounds_witness :
    (⟨"readability", "Readability", 10.0, pureCheck check_readability⟩ : CheckSpec) ∈
      CHECKS ∧
    (∀ c ∈ scenarioChecks, c ∈ CHECKS) ∧
    ∃ r rep,
      (⟨"readability", "Readability", 10.0, pureCheck check_readability⟩ : CheckSpec).func
        (build_context [] "en" defaultOptions)
        (⟨"readability", "Readability", 10.0,
          pureCheck check_readability⟩ : CheckSpec).weight = Except.ok r ∧
      (0 ≤ r.score ∧ r.score ≤ r.max_score) ∧
      aggregate_report "doc.txt" scenarioText "en-US" defaultOptions
        scenarioChecks = Except.ok rep ∧
      (0 ≤ rep.total_score ∧ rep.total_score ≤ 100 ∧
        0 ≤ rep.coverage ∧ rep.coverage ≤ 100) := by
  have hmemR : (⟨"readability", "Readability", 10.0,
      pureCheck check_readability⟩ : CheckSpec) ∈ CHECKS :=
    List.mem_cons_of_mem _ (List.mem_cons_self _ _)
  have hmemS : ∀ c ∈ scenarioChecks, c ∈ CHECKS :=
    fun c hc => List.mem_of_mem_filter hc
  refine ⟨hmemR, hmemS, _, _, rfl, ?_, aggregate_report_eq scenario_run, ?_⟩
  · exact C4_score_bounds.1 _ hmemR (build_context [] "en" defaultOptions) _ rfl
  · exact C4_score_bounds.2 "doc.txt" scenarioText "en-US" defaultOptions
      scenarioChecks _ hmemS (aggregate_report_eq scenario_run)

theorem find_map_set (k : String) (v : MVal) :
    ∀ m : Metrics, m.any (fun p => p.1 = k) = true →
    (m.map (fun p => if p.1 = k then (k, v) else p)).find?
      (fun p => p.1 = k) = some (k, v) := by
  intro m
  induction m with
  | nil =>
    intro h
    simp at h
  | cons p rest ih =>
    intro h
    by_cases hp : p.1 = k
    · simp [List.find?_cons, hp]
    · rw [List.map_cons, if_neg hp]
      rw [List.any_cons] at h
      have h2 : rest.any (fun p => p.1 = k) = true := by
        cases hb : decide (p.1 = k) with
        | false =>
          rw [hb, Bool.false_or] at h
          exact h
        | true => exact absurd (of_decide_eq_true hb) hp
      rw [List.find?_cons_of_neg _ (by simpa using hp)]
      exact ih h2

theorem find_append_single (k : String) (v : MVal) :
    ∀ m : Metrics, m.any (fun p => p.1 = k) = false →
    (m ++ [(k, v)]).find? (fun p => p.1 = k) = some (k, v) := by
  intro m
  induction m with
  | nil =>
    intro _
    simp [List.find?_cons]
  | cons p rest ih =>
    intro h
    rw [List.any_cons] at h
    simp only [Bool.or_eq_false_iff] at h
    rw [List.cons_append]
    simp only [List.find?_cons, h.1]
    exact ih h.2

theorem getMetric_setMetric (m : Metrics) (k : String) (v : MVal) :
    getMetric (setMetric m k v) k = some v := by
  unfold getMetric setMetric
  split
  · next h =>
    rw [find_map_set k v m h]
    rfl
  · next h =>
    have h2 : m.any (fun p => p.1 = k) = false := by
      cases hb : m.any (fun p => p.1 = k)
      · rfl
      · exact absurd hb h
    rw [find_append_single k v m h2]
    rfl

theorem truncateLoop_sum : ∀ (rs : List CheckResult) (M : ℤ), 0 ≤ M →
    ((truncateLoop M rs).map (fun r => (r.issues.length : ℤ))).sum ≤ M := by
  intro rs
  induction rs with
  | nil =>
    intro M hM
    simpa [truncateLoop] using hM
  | cons r rest ih =>
    intro M hM
    rw [truncateLoop]
    by_cases h0 : M ≤ 0
    · rw [if_pos h0]
      by_cases he : r.issues.isEmpty
      · rw [if_pos he]
        rw [List.map_cons, List.sum_cons]
        have hlen : r.issues = [] := List.isEmpty_iff.mp he
        rw [hlen]
        have := ih M hM
        simpa using this
      · rw [if_neg he]
        rw [List.map_cons, List.sum_cons]
        dsimp only
        have := ih M hM
        simpa using this
    · rw [if_neg h0]
      by_cases h1 : M < (r.issues.length : ℤ)
      · rw [if_pos h1]
        rw [List.map_cons, List.sum_cons]
        dsimp only
        rw [List.length_take]
        have := ih 0 le_rfl
        omega
      · rw [if_neg h1]
        rw [List.map_cons, List.sum_cons]
        have := ih (M - (r.issues.length : ℤ)) (by omega)
        omega

theorem remainingAt_zero (M : ℤ) (rs : List CheckResult) :
    remainingAt M rs 0 = M := by
  simp [remainingAt]

theorem truncateLoop_point : ∀ (rs : List CheckResult) (M : ℤ), 0 ≤ M →
    ∀ (i : Nat) (inR : CheckResult), rs[i]? = some inR →
    ∃ outR, (truncateLoop M rs)[i]? = some outR ∧
      outR.issues = inR.issues.take (remainingAt M rs i).toNat ∧
      (remainingAt M rs i < (inR.issues.length : ℤ) →
        getMetric outR.metrics "issues_truncated" =
          some (MVal.int ((inR.issues.length : ℤ) - remainingAt M rs i))) ∧
      ((inR.issues.length : ℤ) ≤ remainingAt M rs i → outR = inR) := by
  intro rs
  induction rs with
  | nil =>
    intro M hM i inR hget
    simp at hget
  | cons r rest ih =>
    intro M hM i inR hget
    by_cases h0 : M ≤ 0
    · have hM0 : M = 0 := le_antisymm h0 hM
      subst hM0
      by_cases he : r.issues.isEmpty
      · have hloop : truncateLoop 0 (r :: rest) = r :: truncateLoop 0 rest := by
          rw [truncateLoop, if_pos le_rfl, if_pos he]
        have hnil : r.issues = [] := List.isEmpty_iff.mp he
        cases i with
        | zero =>
          rw [List.getElem?_cons_zero] at hget
          injection hget with hg
          subst hg
          refine ⟨r, by rw [hloop]; exact List.getElem?_cons_zero, ?_, ?_, ?_⟩
          · rw [remainingAt_zero, hnil]
            rfl
          · intro habs
            rw [remainingAt_zero, hnil] at habs
            simp at habs
          · intro _
            rfl
        | succ i =>
          rw [List.getElem?_cons_succ] at hget
          have hremS : remainingAt 0 (r :: rest) (i + 1) = remainingAt 0 rest i := by
            unfold remainingAt
            rw [hloop, List.take_succ_cons, List.map_cons, List.sum_cons, hnil]
            simp
          obtain ⟨outR, hg, hiss, hann, hunt⟩ := ih 0 le_rfl i inR hget
          refine ⟨outR, ?_, ?_, ?_, ?_⟩
          · rw [hloop, List.getElem?_cons_succ]
            exact hg
          · rw [hremS]
            exact hiss
          · rw [hremS]
            exact hann
          · rw [hremS]
            exact hunt
      · have hloop : truncateLoop 0 (r :: rest) = { r with metrics := setMetric r.metrics "issues_truncated" (MVal.int r.issues.length), issues := [] } :: truncateLoop 0 rest := by
          rw [truncateLoop, if_pos le_rfl, if_neg he]
        cases i with
        | zero =>
          rw [List.getElem?_cons_zero] at hget
          injection hget with hg
          subst hg
          refine ⟨_, by rw [hloop]; exact List.getElem?_cons_zero, ?_, ?_, ?_⟩
          · rw [remainingAt_zero]
            rfl
          · intro _
            rw [remainingAt_zero]
            dsimp only
            rw [getMetric_setMetric]
            rw [show (r.issues.length : ℤ) - 0 = (r.issues.length : ℤ) by ring]
          · intro habs
            rw [remainingAt_zero] at habs
            have hlen0 : r.issues.length = 0 := by omega
            have hnil : r.issues = [] := List.length_eq_zero.mp hlen0
            exact absurd (by rw [hnil]; rfl) he
        | succ i =>
          rw [List.getElem?_cons_succ] at hget
          have hremS : remainingAt 0 (r :: rest) (i + 1) = remainingAt 0 rest i := by
            unfold remainingAt
            rw [hloop, List.take_succ_cons, List.map_cons, List.sum_cons]
            dsimp only
            simp
          obtain ⟨outR, hg, hiss, hann, hunt⟩ := ih 0 le_rfl i inR hget
          refine ⟨outR, ?_, ?_, ?_, ?_⟩
          · rw [hloop, List.getElem?_cons_succ]
            exact hg
          · rw [hremS]
            exact hiss
          · rw [hremS]
            exact hann
          · rw [hremS]
            exact hunt
    · by_cases h1 : M < (r.issues.length : ℤ)
      · have hloop : truncateLoop M (r :: rest) = { r with metrics := setMetric r.metrics "issues_truncated" (MVal.int ((r.issues.length : ℤ) - M)), issues := r.issues.take M.toNat } :: truncateLoop 0 rest := by
          rw [truncateLoop, if_neg h0, if_pos h1]
        cases i with
        | zero =>
          rw [List.getElem?_cons_zero] at hget
          injection hget with hg
          subst hg
          refine ⟨_, by rw [hloop]; exact List.getElem?_cons_zero, ?_, ?_, ?_⟩
          · rw [remainingAt_zero]
          · intro _
            rw [remainingAt_zero]
            dsimp only
            rw [getMetric_setMetric]
          · intro habs
            rw [remainingAt_zero] at habs
            omega
        | succ i =>
          rw [List.getElem?_cons_succ] at hget
          have hremS : remainingAt M (r :: rest) (i + 1) = remainingAt 0 rest i := by
            unfold remainingAt
            rw [hloop, List.take_succ_cons, List.map_cons, List.sum_cons]
            dsimp only
            rw [List.length_take]
            omega
          obtain ⟨outR, hg, hiss, hann, hunt⟩ := ih 0 le_rfl i inR hget
          refine ⟨outR, ?_, ?_, ?_, ?_⟩
          · rw [hloop, List.getElem?_cons_succ]
            exact hg
          · rw [hremS]
            exact hiss
          · rw [hremS]
            exact hann
          · rw [hremS]
            exact hunt
      · have hloop : truncateLoop M (r :: rest) =
            r :: truncateLoop (M - (r.issues.length : ℤ)) rest := by
          rw [truncateLoop, if_neg h0, if_neg h1]
        cases i with
        | zero =>
          rw [List.getElem?_cons_zero] at hget
          injection hget with hg
          subst hg
          refine ⟨r, by rw [hloop]; exact List.getElem?_cons_zero, ?_, ?_, ?_⟩
          · rw [remainingAt_zero]
            exact (List.take_of_length_le (by omega)).symm
          · intro habs
            rw [remainingAt_zero] at habs
            exact absurd habs h1
          · intro _
            rfl
        | succ i =>
          rw [List.getElem?_cons_succ] at hget
          have hremS : remainingAt M (r :: rest) (i + 1) =
              remainingAt (M - (r.issues.length : ℤ)) rest i := by
            unfold remainingAt
            rw [hloop, List.take_succ_cons, List.map_cons, List.sum_cons]
            ring_nf
          obtain ⟨outR, hg, hiss, hann, hunt⟩ :=
            ih (M - (r.issues.length : ℤ)) (by omega) i inR hget
          refine ⟨outR, ?_, ?_, ?_, ?_⟩
          · rw [hloop, List.getElem?_cons_succ]
            exact hg
          · rw [hremS]
            exact hiss
          · rw [hremS]
            exact hann
          · rw [hremS]
            exact hunt

/-- C5: under a positive issue budget the truncation walk keeps the total
kept issues within the budget; position by position it keeps exactly the
prefix fitting the remaining budget, annotates the metrics of a cut result
with the dropped count (a result reached with zero budget is fully cleared
and annotated), and leaves a fitting result untouched; and aggregate_report
applies this walk to the results when max_issues is positive. -/
theorem C5_truncation (M : ℤ) (hM : 0 < M) (rs : List CheckResult) :
    (((truncateLoop M rs).map (fun r => (r.issues.length : ℤ))).sum ≤ M) ∧
    (∀ (i : Nat) (inR : CheckResult), rs[i]? = some inR →
      ∃ outR, (truncateLoop M rs)[i]? = some outR ∧
        outR.issues = inR.issues.take (remainingAt M rs i).toNat ∧
        (remainingAt M rs i < (inR.issues.length : ℤ) →
          getMetric outR.metrics "issues_truncated" =
            some (MVal.int ((inR.issues.length : ℤ) - remainingAt M rs i))) ∧
        ((inR.issues.length : ℤ) ≤ remainingAt M rs i → outR = inR)) ∧
    (∀ (fp : String) (text : Text) (lang : String) (options : AuditOptions)
      (enabled : List CheckSpec) (rs2 : List CheckResult) (aw ts : ℚ)
      (rep : AuditReport),
      options.max_issues = M →
      runChecksLoop (build_context text lang options) options.strict enabled =
        Except.ok (rs2, aw, ts) →
      aggregate_report fp text lang options enabled = Except.ok rep →
      rep.check_results = truncateLoop M rs2) := by
  refine ⟨truncateLoop_sum rs M (le_of_lt hM),
    truncateLoop_point rs M (le_of_lt hM), ?_⟩
  intro fp text lang options enabled rs2 aw ts rep hmi hrun hrep
  rw [aggregate_report_eq hrun] at hrep
  injection hrep with h
  rw [← h]
  dsimp only
  rw [hmi, if_pos (show M ≠ 0 ∧ 0 < M from ⟨by omega, hM⟩)]

/-- C5 (witness): the truncation walk at budget 1 over a two-result list
with three issues, and the aggregate bridging at an empty check list with
max_issues 1. -/
theorem C5_truncation_witness :
    ((0 : ℤ) < 1) ∧
    (((truncateLoop 1 rsW).map (fun r => (r.issues.length : ℤ))).sum ≤ 1) ∧
    (∃ outR, (truncateLoop 1 rsW)[0]? = some outR ∧
      outR.issues = (rsW.getD 0 dummyResult).issues.take (remainingAt 1 rsW 0).toNat) ∧
    (∃ rep, aggregate_report "f" [] "en" optW [] = Except.ok rep ∧
      rep.check_results = truncateLoop 1 []) := by
  obtain ⟨h1, h2, h3⟩ := C5_truncation 1 (by decide) rsW
  refine ⟨by decide, h1, ?_, ?_⟩
  · obtain ⟨outR, hg, hiss, _, _⟩ := h2 0 (rsW.getD 0 dummyResult) (by rfl)
    exact ⟨outR, hg, hiss⟩
  · refine ⟨_, aggregate_report_eq (rfl :
      runChecksLoop (build_context [] "en" optW) optW.strict [] =
        Except.ok ([], 0, 0)), ?_⟩
    exact h3 "f" [] "en" optW [] [] 0 0 _ rfl rfl (aggregate_report_eq rfl)

/-- C6 (amended): offset_to_page returns the count of page breaks at
offsets less than or equal to o, plus one (bisect_right counts the break at
o itself); an empty break list resolves every offset to page 1, and the
combined resolver degrades to plain line/col resolution with no page. -/
theorem C6_page_resolution (o : Nat) (pb : List Nat)
    (hs : List.Pairwise (· ≤ ·) pb) :
    offset_to_page o pb = pb.countP (fun b => decide (b ≤ o)) + 1 ∧
    (pb = [] → offset_to_page o pb = 1) ∧
    (∀ ls, offset_to_page_line_col o ls [] =
      (none, (offset_to_line_col o ls).1, (offset_to_line_col o ls).2)) := by
  refine ⟨?_, ?_, ?_⟩
  · unfold offset_to_page
    by_cases hpb : pb = []
    · subst hpb
      simp
    · rw [if_neg hpb, bisect_right_eq_countP hs]
  · intro h
    subst h
    rfl
  · intro ls
    rfl

/-- C6 (counterexample): at an offset equal to a page-break offset, the
resolver returns the count of breaks at offsets at most o plus one, not the
count of breaks strictly before o plus one. -/
theorem C6_page_resolution_counterexample :
    offset_to_page 5 [5] = 2 ∧
      [5].countP (fun b => decide (b < 5)) + 1 = 1 ∧ (2 : Nat) ≠ 1 := by decide

/-- C6 (witness): the amended statement at offset 3 over breaks [2, 5]. -/
theorem C6_page_resolution_witness :
    List.Pairwise (fun a b => a ≤ b) [2, 5] ∧
    (offset_to_page 3 [2, 5] = [2, 5].countP (fun b => decide (b ≤ 3)) + 1 ∧
     ([2, 5] = ([] : List Nat) → offset_to_page 3 [2, 5] = 1) ∧
     (∀ ls, offset_to_page_line_col 3 ls [] =
       (none, (offset_to_line_col 3 ls).1, (offset_to_line_col 3 ls).2))) :=
  ⟨by decide, C6_page_resolution 3 [2, 5] (by decide)⟩

/-- C7: for a valid offset, line/col resolution against the line starts
built from the text round-trips: the start of the resolved line plus the
zero-based column reproduces the offset. -/
theorem C7_offset_round_trip (text : Text) (o : Nat) (h : o < text.length) :
    ((build_line_starts text).getD
        ((offset_to_line_col o (build_line_starts text)).1 - 1) 0 : ℤ) +
      ((offset_to_line_col o (build_line_starts text)).2 - 1) = (o : ℤ) := by
  unfold offset_to_line_col
  dsimp only
  simp only [Nat.add_sub_cancel]
  ring

/-- C7 (witness): the round trip at offset 4 of a two-line text. -/
theorem C7_offset_round_trip_witness :
    4 < ("ab\ncd".toList : Text).length ∧
    (((build_line_starts ("ab\ncd".toList)).getD
        ((offset_to_line_col 4 (build_line_starts ("ab\ncd".toList))).1 - 1) 0 : ℤ) +
      ((offset_to_line_col 4 (build_line_starts ("ab\ncd".toList))).2 - 1) = (4 : ℤ)) :=
  ⟨by decide, C7_offset_round_trip ("ab\ncd".toList) 4 (by decide)⟩

/-- C8 (counterexample): normalize_text is not idempotent: removing a NUL
that separates a base letter from a combining acute exposes a pair that the
NFC pass of a second run composes. -/
theorem C8_normalize_not_idempotent :
    normalize_text ['e', '\x00', '\u0301'] = ['e', '\u0301'] ∧
    normalize_text (normalize_text ['e', '\x00', '\u0301']) = ['\u00e9'] ∧
    normalize_text (normalize_text ['e', '\x00', '\u0301']) ≠
      normalize_text ['e', '\x00', '\u0301'] := by decide

/-- C8 (amended): normalize_text is idempotent on every text containing no
NUL character; in general idempotence fails only because NUL removal runs
after Unicode NFC normalization and can expose a newly composable pair. -/
theorem C8_normalize_idempotent_of_no_nul (t : Text) (h : '\x00' ∉ t) :
    normalize_text (normalize_text t) = normalize_text t := by
  have hchain0 : List.Chain' noCompose (nfc t) := chain_nfcCompose _
  have hnulA : '\x00' ∉ replaceCrLf (nfc t) := by
    intro hmem
    rcases mem_replaceCrLf hmem with h1 | h1
    · rcases mem_nfc h1 with h2 | h2 | h2 | h2
      · exact h h2
      · exact absurd h2 (by decide)
      · exact absurd h2 (by decide)
      · exact absurd h2 (by decide)
    · exact absurd h1 (by decide)
  have hnulB : '\x00' ∉ replaceCr (replaceCrLf (nfc t)) := by
    intro hmem
    rcases mem_replaceCr hmem with h1 | h1
    · exact hnulA h1
    · exact absurd h1 (by decide)
  have hCeq : removeNul (replaceCr (replaceCrLf (nfc t))) =
      replaceCr (replaceCrLf (nfc t)) := removeNul_eq_self hnulB
  have hchainD : List.Chain' noCompose
      (stripWsBeforeNl (removeNul (replaceCr (replaceCrLf (nfc t))))) := by
    rw [hCeq]
    exact chain_strip (chain_replaceCr (chain_replaceCrLf hchain0))
  have hsub := strip_sublist (removeNul (replaceCr (replaceCrLf (nfc t))))
  have hcrD : '\r' ∉ stripWsBeforeNl (removeNul (replaceCr (replaceCrLf (nfc t)))) := by
    intro hmem
    have := hsub.subset hmem
    rw [hCeq] at this
    exact no_cr_replaceCr _ this
  have hnulD : '\x00' ∉ stripWsBeforeNl (removeNul (replaceCr (replaceCrLf (nfc t)))) := by
    intro hmem
    have := hsub.subset hmem
    rw [hCeq] at this
    exact hnulB this
  show normalize_text (stripWsBeforeNl (removeNul (replaceCr (replaceCrLf (nfc t))))) = _
  unfold normalize_text
  rw [nfc_eq_self_of_chain hchainD, replaceCrLf_eq_self hcrD, replaceCr_eq_self hcrD,
    removeNul_eq_self hnulD, hCeq, strip_strip]

/-- C8 (witness): idempotence at a NUL-free text exercising line-ending
unification and blank stripping. -/
theorem C8_normalize_idempotent_witness :
    '\x00' ∉ ("a \r\nb\tc ".toList : Text) ∧
    normalize_text (normalize_text ("a \r\nb\tc ".toList)) =
      normalize_text ("a \r\nb\tc ".toList) :=
  ⟨by decide, C8_normalize_idempotent_of_no_nul ("a \r\nb\tc ".toList) (by decide)⟩

/-- C9: the mixed bullet-list scenario produces exactly one parallel_lists
issue, with metrics inconsistent_blocks = 1 and penalty_points = 2.0. -/
theorem C9_parallel_scenario :
    (check_parallel_bullets (build_context bulletScenarioText "en-US" defaultOptions)
      10.0).issues.length = 1 ∧
    getMetric (check_parallel_bullets (build_context bulletScenarioText "en-US"
      defaultOptions) 10.0).metrics "inconsistent_blocks" = some (MVal.int 1) ∧
    getMetric (check_parallel_bullets (build_context bulletScenarioText "en-US"
      defaultOptions) 10.0).metrics "penalty_points" = some (MVal.num 2.0) := by
  refine ⟨?_, ?_, ?_⟩ <;> with_unfolding_all decide

/-- C10: under a positive window and an overlap of at most half of it, the
chunk iteration terminates, every yielded chunk is the slice of the text at
its start offset, and every character position is covered by some chunk. -/
theorem C10_chunking (t : Text) (mc overlap : Nat) (hmc : 0 < mc)
    (hov : overlap ≤ mc / 2) :
    ∃ chunks, iter_text_chunks t mc overlap = some chunks ∧
      (∀ p ∈ chunks, p.1 = pySlice t p.2 (p.2 + p.1.length)) ∧
      (∀ pos, pos < t.length → ∃ p ∈ chunks, p.2 ≤ pos ∧ pos < p.2 + p.1.length) := by
  unfold iter_text_chunks
  by_cases hsmall : mc = 0 ∨ t.length ≤ mc
  · rw [if_pos hsmall]
    refine ⟨[(t, 0)], rfl, ?_, ?_⟩
    · intro p hp
      rw [List.mem_singleton] at hp
      subst hp
      simp [pySlice]
    · intro pos hpos
      exact ⟨(t, 0), List.mem_singleton.mpr rfl, Nat.zero_le _, by simpa using hpos⟩
  · rw [if_neg hsmall]
    push_neg at hsmall
    obtain ⟨chunks, h1, h2, h3⟩ :=
      iterChunksLoop_props t mc overlap hmc hov (t.length + 1) 0 (by omega) (by omega)
    exact ⟨chunks, h1, h2, fun pos hpos => h3 pos (Nat.zero_le _) hpos⟩

/-- C10 (witness): the chunk iteration at an 8-character window with
overlap 2 over a 21-character text. -/
theorem C10_chunking_witness :
    0 < 8 ∧ 2 ≤ 8 / 2 ∧
    (∃ chunks, iter_text_chunks ("abcde fgh ijklm nopqr".toList) 8 2 = some chunks ∧
      (∀ p ∈ chunks, p.1 = pySlice ("abcde fgh ijklm nopqr".toList) p.2 (p.2 + p.1.length)) ∧
      (∀ pos, pos < ("abcde fgh ijklm nopqr".toList : Text).length →
        ∃ p ∈ chunks, p.2 ≤ pos ∧ pos < p.2 + p.1.length)) :=
  ⟨by decide, by decide,
    C10_chunking ("abcde fgh ijklm nopqr".toList) 8 2 (by decide) (by decide)⟩

end DocAudit
